import Mathlib

/-!
# Verification of the kowaihito negotiation core (src/server.js)

Shallow embedding of the negotiation state machine of `src/server.js`:
the context store helpers (`getProfileContext`/`saveContext`), the numeric
extraction utilities (`extractBudgetAndReason`, `extractYenOffer`), the offer
engines (`computeNextOffer`, `proposeNextOffer`), the configuration reader
(`getNegotiationParams`) and the controller (`handleNegotiationFlow`).

Conventions of the embedding:
* JavaScript numbers that are always integral in the source are `Int`/`Nat`;
  a JS number that may be `NaN`/`undefined` is `Option Int` with `none` for
  the non-numeric value (all relational operators on `NaN` are false, which
  is mirrored by the `n*` helpers below).
* JS regular-expression tests are modelled by their exact semantics on the
  concrete patterns of the source (anchored alternations become "one of the
  literals, followed only by trailer characters"; unanchored alternations of
  literals become substring tests; `\d{m,n}` searches become leftmost digit
  run scans).
* Database rows are in-memory records; `updated_at`/`created_at` timestamps
  that no claim mentions are dropped, `completed_at` is kept abstractly as a
  `Nat` tick supplied by the caller.
* Calls to the LLM (`classifyObjection` fallback, `buildRoast`) and to the
  clock (`dayjs`) are oracles passed in as parameters.
-/

namespace Kowaihito

/-! ## JS string primitives -/

/-- The character class `\s` of JS regexes (the members that can occur in
chat text; JS also counts a few exotic Unicode spaces). -/
def jsSpace (c : Char) : Bool :=
  c = ' ' || c = '\t' || c = '\n' || c = '\r' || c = '\x0b' || c = '\x0c' ||
  c = ' ' || c = '　' || c = '﻿'

/-- `String.prototype.trim`. -/
def jsTrimList (cs : List Char) : List Char :=
  (((cs.dropWhile jsSpace).reverse).dropWhile jsSpace).reverse

/-- `String.prototype.trim` on `String`. -/
def jsTrim (s : String) : String := ⟨jsTrimList s.data⟩

/-- `String.prototype.toLowerCase` (ASCII part; the Japanese characters the
source compares are unaffected by case mapping). -/
def jsToLower (s : String) : String := ⟨s.data.map Char.toLower⟩

/-- `hay.includes(needle)` / an unanchored regex alternation of literals. -/
def containsSub (hay needle : String) : Bool :=
  hay.data.tails.any (fun t => needle.data.isPrefixOf t)

/-- Does `t` contain one of the literal alternatives? (unanchored
`/(w1|w2|...)/` test). -/
def anyWordIn (words : List String) (t : String) : Bool :=
  words.any (fun w => containsSub t w)

/-- Numeric value of a list of ASCII digits (what `parseInt` does on an
all-digit string). -/
def digitsToNat (ds : List Char) : Nat :=
  ds.foldl (fun a c => a * 10 + (c.toNat - '0'.toNat)) 0

/-- Leftmost match of `/\d{minL,}/` truncated greedily to `maxL` digits:
the first maximal ASCII digit run of length `≥ minL`, of which the first
`min maxL` digits are captured.  This is the exact leftmost-match semantics
of the patterns `(\d{3,6})` in `extractYenOffer` (rule 1, whose optional
`¥`/`円` prefixes and `円` suffix do not change the captured digits) and in
`extractBudgetAndReason`. -/
def firstDigitRun : List Char → Nat → Nat → Option Nat
  | [], _, _ => none
  | c :: rest, minL, maxL =>
    if c.isDigit then
      let run := (c :: rest).takeWhile (·.isDigit)
      if minL ≤ run.length then some (digitsToNat (run.take maxL))
      else firstDigitRun rest minL maxL
    else firstDigitRun rest minL maxL

/-- Leftmost match of `(^|\D)(\d{minL,maxL})(\D|$)`: the first maximal digit
run whose length lies in `[minL, maxL]` (a longer run cannot match because
the greedy group would be followed by a digit). -/
def firstBoundedRun (cs : List Char) (minL maxL : Nat) : Option Nat :=
  match cs with
  | [] => none
  | c :: rest =>
    if c.isDigit then
      let run := (c :: rest).takeWhile (·.isDigit)
      if minL ≤ run.length ∧ run.length ≤ maxL then some (digitsToNat run)
      else firstBoundedRun (rest.dropWhile (·.isDigit)) minL maxL
    else firstBoundedRun rest minL maxL
termination_by cs.length
decreasing_by
  · exact Nat.lt_succ_of_le
      (List.Sublist.length_le (List.IsSuffix.sublist (List.dropWhile_suffix _)))
  · simp

/-- `Math.round (digits "intRun.fracRun" * mult)` computed exactly:
JS `Math.round` rounds half-way cases up, i.e. `⌊x + 1/2⌋` for positive `x`.
(The float evaluation of the source agrees with the exact value on all the
inputs relevant here.) -/
def roundMulVal (intRun fracRun : List Char) (mult : Nat) : Nat :=
  let scaled := digitsToNat (intRun ++ fracRun)
  let d := 10 ^ fracRun.length
  (2 * scaled * mult + d) / (2 * d)

/-- Leftmost match of `/(\d+(?:\.\d+)?)\s*(万|千|k|K)/` together with the
unit arithmetic of `extractYenOffer` rule 2: `万` multiplies by 10000, `千`
and `k`/`K` by 1000, with `Math.round`.  Greedy digit runs followed by an
optional fraction; backtracking inside the runs can never rescue a failed
unit match (the next character would be a digit), so a per-position
deterministic scan is exact. -/
def yenUnitScan : List Char → Option Nat
  | [] => none
  | c :: rest =>
    if c.isDigit then
      let intRun := (c :: rest).takeWhile (·.isDigit)
      let afterInt := (c :: rest).dropWhile (·.isDigit)
      let fracRun : List Char :=
        match afterInt with
        | '.' :: t => t.takeWhile (·.isDigit)
        | _ => []
      let afterFrac : List Char :=
        match afterInt with
        | '.' :: t => if (t.takeWhile (·.isDigit)).length > 0
                      then t.dropWhile (·.isDigit) else afterInt
        | _ => afterInt
      let afterWs := afterFrac.dropWhile jsSpace
      match afterWs with
      | u :: _ =>
        if u = '万' then some (roundMulVal intRun fracRun 10000)
        else if u = '千' || u = 'k' || u = 'K' then some (roundMulVal intRun fracRun 1000)
        else yenUnitScan rest
      | [] => yenUnitScan rest
    else yenUnitScan rest

/-- Full-width digit `０..９` to its ASCII counterpart (`extractYenOffer`'s
first `replace`). -/
def zenDigitToHan (c : Char) : Char :=
  if '０' ≤ c ∧ c ≤ '９' then Char.ofNat (c.toNat - 0xFEE0) else c

/-- `extractYenOffer` (server.js:789-814): full-width digit folding, comma
stripping and trimming, then three rules: an explicit 3-6 digit amount, a
number with a `万`/`千`/`k` unit, and a bare 4-6 digit number with
non-digit boundaries. -/
def extractYenOffer (raw : String) : Option Nat :=
  let s := jsTrimList ((raw.data.map zenDigitToHan).filter
    (fun c => ¬(c = '，' ∨ c = ',')))
  match firstDigitRun s 3 6 with
  | some v => some v
  | none =>
    match yenUnitScan s with
    | some v => some v
    | none => firstBoundedRun s 4 6

/-- `extractBudgetAndReason` (server.js:296-308): strips `[,\s円¥]`, takes
the first 3-6 digit amount, and classifies the stated reason by keyword. -/
def extractBudgetAndReason (text : String) : Option Nat × Option String :=
  let normalized := text.data.filter
    (fun c => ¬(c = ',' ∨ jsSpace c = true ∨ c = '円' ∨ c = '¥'))
  let budgetYen := firstDigitRun normalized 3 6
  let lower := jsToLower text
  let reason :=
    if containsSub lower "学生" || containsSub lower "student" then some "student"
    else if containsSub lower "予算" || containsSub lower "高い" ||
            containsSub lower "無理" || containsSub lower "budget" then some "budget"
    else if containsSub lower "使い方" || containsSub lower "用途" ||
            containsSub lower "どう使" then some "usecase-unclear"
    else none
  (budgetYen, reason)

/-- `classifyRole` (server.js:289-294). -/
def classifyRole (text : String) : String :=
  let t := jsToLower text
  if containsSub t "学生" || containsSub t "student" || containsSub t "school" then "student"
  else if containsSub t "チーム" || containsSub t "team" || containsSub t "会社" ||
          containsSub t "corporate" then "team"
  else "indie"

/-! ## The negotiation regexes and fixed tables (server.js:183-198) -/

/-- The alternatives of `NEGOTIATION_START_REGEX` (anchored `^(...)$`, so the
test is exact equality with one alternative; the `/i` flag is moot, every
literal is Japanese). -/
def negotiationStartWords : List String :=
  ["交渉", "アップグレード交渉", "値段", "ねだん", "価格", "値下げ", "安く", "安い",
   "割引", "ディスカウント", "値引き", "価格交渉", "料金", "料金交渉", "値段交渉",
   "値段相談", "価格相談", "料金相談", "はじめる", "話し合い", "相談", "決めよう",
   "プロプラン", "アップグレード", "移行", "使いたい", "もっと", "続けたい"]

/-- `NEGOTIATION_START_REGEX.test`. -/
def negotiationStartTest (t : String) : Bool := negotiationStartWords.contains t

/-- Trailer class `[!！。ですます〜\s]` shared by the accept and decline
regexes. -/
def politeTail (c : Char) : Bool :=
  c = '!' || c = '！' || c = '。' || c = 'で' || c = 'す' || c = 'ま' || c = '〜' ||
  jsSpace c

/-- Test of a pattern `^(w1|w2|...)([!！。ですます〜\s]*)?$/i`: the string is
one alternative followed only by trailer characters (the regex engine
backtracks through the alternation, so any alternative may serve as the
head).  `/i` is modelled by ASCII lowercasing, which the heads "ok" need. -/
def anchoredHeadTailTest (heads : List String) (t : String) : Bool :=
  let low := (jsToLower t).data
  heads.any (fun h => h.data.isPrefixOf low && (low.drop h.data.length).all politeTail)

/-- `ACCEPT_REGEX.test` (server.js:184). -/
def acceptTest (t : String) : Bool :=
  anchoredHeadTailTest
    ["はい", "ok", "ｏｋ", "了解", "りょうかい", "合意", "それで", "決めた", "買う"] t

/-- `DECLINE_REGEX.test` (server.js:185). -/
def declineTest (t : String) : Bool :=
  anchoredHeadTailTest
    ["やめる", "キャンセル", "キャンセルする", "中止", "終了", "交渉終了", "いらない", "不要"] t

/-- The unanchored re-trigger alternation checked in the `close` state
(server.js:579). -/
def closeRetriggerTest (t : String) : Bool :=
  anyWordIn
    ["価格", "値段", "料金", "安く", "割引", "交渉", "話し合い", "相談", "決めよう",
     "プロプラン", "アップグレード", "移行", "使いたい", "もっと", "続けたい"] t

/-- `STATE_PROMPTS` (server.js:187-192). -/
def STATE_PROMPTS_onboarding_q1 : String := "こわい上司だ。なぜ私を必要としたのかを答えろ。"

def STATE_PROMPTS_onboarding_q2 : String := "立場は？（学生 / 個人プロ / チーム）"

def STATE_PROMPTS_onboarding_q3 : String := "月の予算の上限は？（数字だけでもいい）"

def STATE_PROMPTS_close : String := "交渉は終了した。また話し合いたいなら何かメッセージを送れ。"

/-- A price ladder of `LADDERS` (server.js:194-198). -/
structure Ladder where
  anchor : Int
  steps : List Int
  floor : Int
deriving DecidableEq, Repr

def LADDERS_student : Ladder := ⟨3000, [2900, 2500, 2000, 1000, 500, 300], 300⟩

def LADDERS_indie : Ladder := ⟨4900, [3900, 3500, 2900, 2500], 2500⟩

def LADDERS_team : Ladder := ⟨9900, [7900, 5900], 5900⟩

/-- `LADDERS[segment] || LADDERS.indie` (server.js:622). -/
def laddersGet (segment : String) : Ladder :=
  if segment = "student" then LADDERS_student
  else if segment = "indie" then LADDERS_indie
  else if segment = "team" then LADDERS_team
  else LADDERS_indie

/-! ## Data model: negotiation context and sessions -/

/-- The `last_state` strings the controller stores (absence = `null`). -/
inductive Stage where
  | onboarding_q1 | onboarding_q2 | onboarding_q3 | nego_step | close
deriving DecidableEq, Repr

/-- Session `state` column (`open`/`agreed`/`cancelled`; `opened` because
`open` is a Lean keyword). -/
inductive SessState where
  | opened | agreed | cancelled
deriving DecidableEq, Repr

/-- A `{role, content}` turn of `meta.conversation_history`. -/
structure Turn where
  role : String
  content : String
deriving DecidableEq, Repr

/-- A `negotiation_sessions` row as the controller reads and writes it; the
`meta` JSON blob's fields (`steps`, `step_index`, `floor_yen`,
`reason_class`, `conversation_history`) are inlined, `created_at`/`updated_at`
are dropped and `completed_at` is an abstract tick. -/
structure Session where
  id : Nat
  state : SessState
  segment : String
  anchor_price : Int
  soft_floor : Int
  hard_floor : Int
  current_offer : Int
  concessions_used : Nat
  accepted : Bool
  final_price : Option Int
  completed_at : Option Nat
  steps : List Int
  step_index : Int
  floor_yen : Int
  reason_class : Option String
  conversation_history : List Turn
deriving DecidableEq, Repr

/-- The per-user context JSON stored under key `context` in
`profile_memories`, as the negotiation controller uses it. -/
structure Ctx where
  last_state : Option Stage
  purpose : Option String
  role : Option String
  budget_yen : Option Nat
  constraint_reason : Option String
  current_session_id : Option Nat
deriving DecidableEq, Repr

/-- A context whose negotiation fields are all `null` (what
`resetNegotiationContext`, server.js:278-287, leaves behind). -/
def emptyCtx : Ctx := ⟨none, none, none, none, none, none⟩

/-- The single-user world the controller mutates: the context row (absent
before first contact) and all `negotiation_sessions` rows in creation order
(row ids are allocation indices). -/
structure GState where
  ctx : Option Ctx
  sessions : List Session
deriving DecidableEq, Repr

/-- `decideSegment` (server.js:310-317), reading the given context. -/
def decideSegment (ctx : Option Ctx) : String :=
  match ctx with
  | none => "indie"
  | some c =>
    if c.role = some "team" then "team"
    else if c.role = some "student" then "student"
    else
      match c.budget_yen with
      | some b => if b ≠ 0 ∧ b ≤ 1000 then "student" else "indie"
      | none => "indie"

/-- `createNegoSession` (server.js:345-377): the inserted payload (fresh
`open` session at the ladder anchor; `soft_floor` and `hard_floor` are both
set to the ladder floor). -/
def createNegoSession (id : Nat) (segment : String) (ladder : Ladder) : Session :=
  { id := id
    state := SessState.opened
    segment := segment
    anchor_price := ladder.anchor
    soft_floor := ladder.floor
    hard_floor := ladder.floor
    current_offer := ladder.anchor
    concessions_used := 0
    accepted := false
    final_price := none
    completed_at := none
    steps := ladder.steps
    step_index := -1
    floor_yen := ladder.floor
    reason_class := none
    conversation_history := [] }

/-- `classifyObjection` (server.js:481-503): keyword classification, with the
LLM call modelled by the `oracle` (its catch-branch returns "haggle"). -/
def classifyObjection (oracle : String → String) (text : String) : String :=
  let lower := jsToLower text
  if containsSub lower "学生" || containsSub lower "student" then "student"
  else if containsSub lower "高い" || containsSub lower "予算" ||
          containsSub lower "無理" || containsSub lower "安く" then "budget"
  else if containsSub lower "使い方" || containsSub lower "用途" ||
          containsSub lower "まだ" || containsSub lower "どう使" then "usecase-unclear"
  else oracle text

/-! ## Offer engine of the live controller -/

/-- Result of `computeNextOffer`.  In the source `offer` is always a number
(a ladder step or the current offer), so it is an `Int` here and the
caller's `next.offer ?? session.current_offer_yen` is the identity. -/
structure NextOffer where
  concede : Bool
  offer : Int
  reachedFloor : Bool
  nextIndex : Int
  classification : String
deriving DecidableEq, Repr

/-- `steps[idx]` for a possibly negative JS index (undefined off the left
edge). -/
def stepAt (steps : List Int) (idx : Int) : Option Int :=
  if 0 ≤ idx then steps.get? idx.toNat else none

/-- `computeNextOffer` (server.js:455-479) on the normalized session view
(`current_offer_yen = current_offer`, `floor = meta.floor_yen`,
`steps = meta.steps`, `step_index = meta.step_index`).  The JS truthiness
test `steps[nextIndex]` makes a zero step fall back to the current offer. -/
def computeNextOffer (s : Session) (classification : String) : NextOffer :=
  let steps := s.steps
  let floor := s.floor_yen
  let currentOffer := s.current_offer
  let currentIndex := s.step_index
  let stepAdvance : Int :=
    if classification = "student" ∨ classification = "budget" then 1
    else if classification = "usecase-unclear" then (if 0 < steps.length then 1 else 0)
    else 0
  let nextIndex : Int := min (currentIndex + stepAdvance) ((steps.length : Int) - 1)
  let stepVal : Option Int := stepAt steps nextIndex
  let offer : Int :=
    match stepVal with
    | some v => if v ≠ 0 then v else currentOffer
    | none => currentOffer
  { concede := decide (0 < stepAdvance) && decide (offer < currentOffer)
    offer := offer
    reachedFloor := decide (offer ≤ floor) || decide (nextIndex = (steps.length : Int) - 1)
    nextIndex := if steps.length ≠ 0 then nextIndex else currentIndex
    classification := classification }

/-! ## The controller `handleNegotiationFlow` (server.js:544-720) -/

/-- Context written by the funnel (re)start branches (server.js:553-564 and
577-591) and by the follow event (server.js:2436-2444): `last_state`
`onboarding_q1` and every other negotiation field `null`. -/
def startCtx : Ctx := { emptyCtx with last_state := some Stage.onboarding_q1 }

/-- `updateNegotiationSession` restricted to the rows matching `id` (the
store's `.update(...).eq('id', id)`); a missing id updates nothing. -/
def updateSessionAt (sessions : List Session) (id : Nat) (f : Session → Session) :
    List Session :=
  sessions.map (fun s => if s.id = id then f s else s)

/-- The decline branch (server.js:566-574): cancel the context-referenced
session, if any, and reset the context. -/
def declineStep (now : Nat) (st : GState) : GState :=
  { ctx := some emptyCtx
    sessions :=
      match st.ctx.bind (fun c => c.current_session_id) with
      | some sid =>
        updateSessionAt st.sessions sid
          (fun s => { s with state := SessState.cancelled, completed_at := some now })
      | none => st.sessions }

/-- `collect goal` stage (`onboarding_q1`, server.js:594-601). -/
def q1Step (trimmed : String) (c : Ctx) : Ctx :=
  { c with purpose := some trimmed, last_state := some Stage.onboarding_q2 }

/-- `collect role` stage (`onboarding_q2`, server.js:603-611). -/
def q2Step (trimmed : String) (c : Ctx) : Ctx :=
  { c with role := some (classifyRole trimmed), last_state := some Stage.onboarding_q3 }

/-- Budget stage (`onboarding_q3`, server.js:613-635): store the extraction
result (possibly `null`), advance to `nego_step`, create the session from
the segment ladder, point the context at it, log the roast, reply with the
anchor pitch. -/
def q3Step (roast trimmed : String) (st : GState) (c : Ctx) : GState × String :=
  let er := extractBudgetAndReason trimmed
  let c1 := { c with budget_yen := er.1, constraint_reason := er.2,
                     last_state := some Stage.nego_step }
  let segment := decideSegment (some c1)
  let ladder := laddersGet segment
  let sid := st.sessions.length
  let sess := createNegoSession sid segment ladder
  let c2 := { c1 with current_session_id := some sid }
  let sessions1 := st.sessions ++ [sess]
  let sessions2 := updateSessionAt sessions1 sid
    (fun s => { s with conversation_history := s.conversation_history ++ [⟨"bot", roast⟩] })
  (⟨some c2, sessions2⟩,
   roast ++ "\n\n初月は**¥" ++ toString sess.current_offer ++
     "**で始める。いけるか？（はい / いいえ / もう少し）")

/-- `getNegotiationSessionById` / `getActiveNegotiationSession` as used at
server.js:638-641: by context pointer if set, else the most recent `open`
row. -/
def resolveSession (st : GState) (c : Ctx) : Option Session :=
  match c.current_session_id with
  | some sid => st.sessions.find? (fun s => decide (s.id = sid))
  | none => (st.sessions.reverse).find? (fun s => decide (s.state = SessState.opened))

/-- `buildCheckoutUrl` (server.js:536-542), with URL assembly abstracted to
concatenation. -/
def buildCheckoutUrl (origin : String) (amount : Int) : String :=
  origin ++ "/api/checkout/custom?amount=" ++ toString amount

/-- The acceptance branch of `nego_step` (server.js:649-672): close the
session `agreed` at the standing offer, keep the context pointer but move
`last_state` to `close`, log the user and bot turns. -/
def acceptStep (now : Nat) (origin trimmed : String) (sess : Session) (st : GState)
    (c : Ctx) : GState × String :=
  let msg := "合意だ。**¥" ++ toString sess.current_offer ++
    "**で決裁しろ。\n\n決済後は全ての機能が使えるようになる。\n\n🔗 " ++
    buildCheckoutUrl origin sess.current_offer ++ "\n\nリンクが切れたらまた知らせろ。"
  let sessions1 := updateSessionAt st.sessions sess.id
    (fun s => { s with state := SessState.agreed, accepted := true,
                       final_price := some sess.current_offer,
                       completed_at := some now,
                       conversation_history :=
                         sess.conversation_history ++ [⟨"user", trimmed⟩] })
  let sessions2 := updateSessionAt sessions1 sess.id
    (fun s => { s with conversation_history := s.conversation_history ++ [⟨"bot", msg⟩] })
  (⟨some { c with last_state := some Stage.close }, sessions2⟩, msg)

/-- The counter-offer branch of `nego_step` (server.js:675-709): classify the
objection, remember it in the context, ask `computeNextOffer`, write the new
offer and step index back, log both turns, reply per
`concede`/`reachedFloor`. -/
def counterStep (oracle : String → String) (trimmed : String) (sess : Session)
    (st : GState) (c : Ctx) : GState × String :=
  let classification := classifyObjection oracle trimmed
  let next := computeNextOffer sess classification
  let response :=
    if !next.concede then
      "了解。じゃあ今の**¥" ++ toString next.offer ++ "**でどうだ？（合意 / もっと）"
    else if next.reachedFloor then
      "これが最終だ。**¥" ++ toString next.offer ++
        "**。機能制限ありでも受けるか？（はい / やめる）"
    else
      "理由は理解した。なら**¥" ++ toString next.offer ++
        "**で手を打つ。どうする？（合意 / もう少し）"
  let sessions1 := updateSessionAt st.sessions sess.id
    (fun s => { s with current_offer := next.offer, step_index := next.nextIndex,
                       reason_class := some classification,
                       conversation_history :=
                         sess.conversation_history ++ [⟨"user", trimmed⟩] })
  let sessions2 := updateSessionAt sessions1 sess.id
    (fun s => { s with conversation_history := s.conversation_history ++ [⟨"bot", response⟩] })
  (⟨some { c with constraint_reason := some classification }, sessions2⟩, response)

/-- Result of one controller invocation: the handled flag, the world after
all persistence writes, and the reply sent (if any). -/
structure StepResult where
  handled : Bool
  st : GState
  reply : Option String
deriving DecidableEq, Repr

/-- `handleNegotiationFlow` (server.js:544-720).  `oracle` stands for the
LLM classification call, `roast` for the generated roast line, `now` for the
wall clock and `origin` for the request origin used in the checkout URL. -/
def handleNegotiationFlow (oracle : String → String) (roast : String) (now : Nat)
    (origin : String) (st : GState) (text : String) : StepResult :=
  let trimmed := jsTrim text
  match st.ctx.bind (fun c => c.last_state) with
  | none =>
    if negotiationStartTest trimmed then
      ⟨true, { st with ctx := some startCtx }, some STATE_PROMPTS_onboarding_q1⟩
    else
      ⟨false, st, none⟩
  | some stg =>
    if declineTest trimmed then
      ⟨true, declineStep now st, some "交渉をキャンセルした。必要ならまた「交渉」と送れ。"⟩
    else if stg = Stage.close ∧ (negotiationStartTest trimmed || closeRetriggerTest trimmed) then
      ⟨true, { st with ctx := some startCtx }, some STATE_PROMPTS_onboarding_q1⟩
    else
      let c := st.ctx.getD emptyCtx
      match stg with
      | Stage.onboarding_q1 =>
        ⟨true, { st with ctx := some (q1Step trimmed c) }, some STATE_PROMPTS_onboarding_q2⟩
      | Stage.onboarding_q2 =>
        ⟨true, { st with ctx := some (q2Step trimmed c) }, some STATE_PROMPTS_onboarding_q3⟩
      | Stage.onboarding_q3 =>
        let r := q3Step roast trimmed st c
        ⟨true, r.1, some r.2⟩
      | Stage.nego_step =>
        match resolveSession st c with
        | none =>
          ⟨true, { st with ctx := some emptyCtx },
           some "セッションが見つからない。もう一度「交渉」と送れ。"⟩
        | some sess =>
          if acceptTest trimmed then
            let r := acceptStep now origin trimmed sess st c
            ⟨true, r.1, some r.2⟩
          else
            let r := counterStep oracle trimmed sess st c
            ⟨true, r.1, some r.2⟩
      | Stage.close =>
        ⟨true, st, some STATE_PROMPTS_close⟩

/-- Reachable worlds: no data, the follow event's context initialization
(server.js:2436-2444), and controller invocations with arbitrary messages
and oracles. -/
inductive Reach : GState → Prop where
  | init : Reach ⟨none, []⟩
  | follow {st : GState} : Reach st → Reach ⟨some startCtx, st.sessions⟩
  | step {st : GState} (oracle : String → String) (roast : String) (now : Nat)
      (origin text : String) :
      Reach st → Reach (handleNegotiationFlow oracle roast now origin st text).st

/-! ## Configuration reader `getNegotiationParams` (server.js:740-759) -/

/-- JS `a || b` on an environment value: `undefined` and the empty string
fall through to the fallback. -/
def envOr (a : Option String) (b : String) : String :=
  match a with
  | some s => if s = "" then b else s
  | none => b

/-- `parseInt(s, 10)` on an already-cleaned string: optional sign, then the
leading digit run; `none` models `NaN`. -/
def jsParseInt (s : String) : Option Int :=
  let parseDigits : List Char → Option Nat := fun cs =>
    let run := cs.takeWhile (·.isDigit)
    if run.isEmpty then none else some (digitsToNat run)
  match s.data with
  | '-' :: rest => (parseDigits rest).map (fun n => -(n : Int))
  | '+' :: rest => (parseDigits rest).map (fun n => (n : Int))
  | cs => (parseDigits cs).map (fun n => (n : Int))

/-- `cleanStr` (server.js:742): drop every `[\n\r\s]` character (the final
`.trim()` is then a no-op). -/
def cleanStr (s : String) : String :=
  ⟨s.data.filter (fun c => ¬(c = '\n' ∨ c = '\r' ∨ jsSpace c = true))⟩

/-- The record returned by `getNegotiationParams`; each field is the
`parseInt` of an environment variable (with fallbacks), `none` = `NaN`. -/
structure NegotiationParams where
  list : Option Int
  soft : Option Int
  hard : Option Int
  variancePct : Option Int
  maxConcessions : Option Int
deriving DecidableEq, Repr

/-- `getNegotiationParams` (server.js:740-759): parse with per-variable
fallbacks and defaults.  Note: the source performs no consistency check and
has no failure path. -/
def getNegotiationParams (env : String → Option String) : NegotiationParams :=
  { list := jsParseInt (cleanStr (envOr (env "NEGOTIATION_LIST_PRICE_YEN")
      (envOr (env "NEGOTIATION_ANCHOR_YEN") "15000")))
    soft := jsParseInt (cleanStr (envOr (env "NEGOTIATION_SOFT_FLOOR_YEN") "12900"))
    hard := jsParseInt (cleanStr (envOr (env "NEGOTIATION_HARD_FLOOR_YEN")
      (envOr (env "NEGOTIATION_FLOOR_YEN") "9900")))
    variancePct := jsParseInt (cleanStr (envOr (env "NEGOTIATION_ANCHOR_VARIANCE_PCT") "8"))
    maxConcessions := jsParseInt (cleanStr (envOr (env "NEGOTIATION_MAX_CONCESSIONS") "2")) }

/-- The startup-validation predicate in the spec's words ("soft_floor ≥
hard_floor ≥ 0, list price ≥ soft_floor"), requiring in particular that all
three prices parsed; stated over the parsed record to compare the spec
against `getNegotiationParams`, which never checks it. -/
def specParamsConsistent (p : NegotiationParams) : Bool :=
  match p.list, p.soft, p.hard with
  | some lv, some sv, some hv => decide (sv ≥ hv) && decide (hv ≥ 0) && decide (lv ≥ sv)
  | _, _, _ => false

/-! ## The V5 offer engine `proposeNextOffer` (server.js:818-1029)

Unused by the live controller (its only reference in server.js is its
definition), but cited by the spec's concession rule.  JS `NaN`/`undefined`
numbers are `none`; the `n*` helpers reproduce `Math.max`/`Math.min`/
comparison behaviour on `NaN` (comparisons false, min/max poisoned). -/

/-- `a < b` with `NaN` compares false. -/
def nLt (a b : Option Int) : Bool :=
  match a, b with
  | some x, some y => decide (x < y)
  | _, _ => false

/-- `a >= b` with `NaN` compares false. -/
def nGe (a b : Option Int) : Bool :=
  match a, b with
  | some x, some y => decide (x ≥ y)
  | _, _ => false

/-- `Math.max` (NaN-propagating). -/
def nMax (a b : Option Int) : Option Int :=
  match a, b with
  | some x, some y => some (max x y)
  | _, _ => none

/-- `Math.min` (NaN-propagating). -/
def nMin (a b : Option Int) : Option Int :=
  match a, b with
  | some x, some y => some (min x y)
  | _, _ => none

/-- The source's `clamp(v, lo, hi) = Math.max(lo, Math.min(hi, v))`. -/
def nClamp (v lo hi : Option Int) : Option Int := nMax lo (nMin hi v)

/-- JS truthiness of a number-or-null value: `null`, `0` and `NaN` are
falsy (the `userOffer && ...` guards of server.js:944 and 989). -/
def nTruthy (a : Option Int) : Bool :=
  match a with
  | some x => decide (x ≠ 0)
  | none => false

/-- JS `a || b` on numbers: `0`, `NaN` and `undefined` fall through. -/
def jsOrNum (a b : Option Int) : Option Int :=
  match a with
  | some x => if x ≠ 0 then some x else b
  | none => b

/-- `envInt` (server.js:824-827): strip every non-digit and parse, with a
default on failure (note: a minus sign is stripped, so the result is
non-negative). -/
def envInt (env : String → Option String) (k : String) (d : Int) : Int :=
  let ds := ((env k).getD "").data.filter (·.isDigit)
  if ds.isEmpty then d else (digitsToNat ds : Int)

/-- `split(',').map(trim).filter(Boolean)`. -/
def splitCommaClean (s : String) : List String :=
  ((s.split (· = ',')).map jsTrim).filter (fun x => x ≠ "")

/-- Leftmost match of `/(\d{1,2})\s*(h|時間)/i` — the weekly-hours
extraction (server.js:862). -/
def hoursUnitTail (cs : List Char) : Bool :=
  match cs.dropWhile jsSpace with
  | 'h' :: _ => true
  | 'H' :: _ => true
  | rest => "時間".data.isPrefixOf rest

def scanHours : List Char → Option Nat
  | [] => none
  | c :: rest =>
    if c.isDigit then
      let run := (c :: rest).takeWhile (·.isDigit)
      let try2 : Option Nat :=
        if 2 ≤ run.length ∧ hoursUnitTail ((c :: rest).drop 2)
        then some (digitsToNat (run.take 2)) else none
      match try2 with
      | some v => some v
      | none =>
        if hoursUnitTail ((c :: rest).drop 1)
        then some (digitsToNat (run.take 1))
        else scanHours rest
    else scanHours rest

/-- Tail of `/(\d{3,6})\s*円\s*\/?\s*(h|時間)/i` after the digits — the
hourly-rate extraction (server.js:865). -/
def rateUnitTail (cs : List Char) : Bool :=
  match cs.dropWhile jsSpace with
  | '円' :: t =>
    let t1 := t.dropWhile jsSpace
    let t2 := match t1 with
      | '/' :: u => u.dropWhile jsSpace
      | _ => t1
    (match t2 with
     | 'h' :: _ => true
     | 'H' :: _ => true
     | rest => "時間".data.isPrefixOf rest)
  | _ => false

def scanRate : List Char → Option Nat
  | [] => none
  | c :: rest =>
    if c.isDigit then
      let run := (c :: rest).takeWhile (·.isDigit)
      let tryK : Nat → Option Nat := fun k =>
        if k ≤ run.length ∧ rateUnitTail ((c :: rest).drop k)
        then some (digitsToNat (run.take k)) else none
      match tryK 6 with
      | some v => some v
      | none => match tryK 5 with
        | some v => some v
        | none => match tryK 4 with
          | some v => some v
          | none => match tryK 3 with
            | some v => some v
            | none => scanRate rest
    else scanRate rest

/-- Leftmost match among literal alternatives (the `今日|明日|...` start
extraction, server.js:869; at any position at most one alternative can
match, so alternation order is immaterial). -/
def firstWordMatch (words : List String) : List Char → Option String
  | [] => none
  | cs =>
    match words.find? (fun w => w.data.isPrefixOf cs) with
    | some w => some w
    | none =>
      match cs with
      | [] => none
      | _ :: rest => firstWordMatch words rest

/-- `meta.notes` of the V5 engine. -/
structure VNotes where
  use : Option String
  hours_loss : Option Int
  hourly_rate : Option Int
  start : Option String
  budget_said : Option Int
deriving DecidableEq, Repr

def emptyVNotes : VNotes := ⟨none, none, none, none, none⟩

/-- `meta` of the V5 engine (`phase`, `notes`). -/
structure VMeta where
  phase : Option String
  notes : Option VNotes
deriving DecidableEq, Repr

/-- The session fields `proposeNextOffer` reads.  `conditions` is modelled
by its only structured content: `none` = no conditions object, `some cm` =
an object whose `commit_months` is `cm` (`some none` = `{}`). -/
structure VSess where
  soft_floor : Option Int
  hard_floor : Option Int
  current_offer : Option Int
  concessions_used : Option Int
  conditions : Option (Option Int)
  meta : VMeta
deriving DecidableEq, Repr

/-- What `proposeNextOffer` returns; `concessions_used = none` means the
result object carries no such key (the caller would not update the count).
`conditions` uses the same encoding as `VSess.conditions`. -/
structure VResult where
  accept : Bool
  price : Option Int
  conditions : Option (Option Int)
  concessions_used : Option Int
  message : String
  phase : Option String
  notes : VNotes
deriving DecidableEq, Repr

/-- `¥` rendering without the thousands grouping of `toLocaleString`. -/
def yenStr (v : Option Int) : String :=
  match v with
  | some x => "¥" ++ toString x
  | none => "¥NaN"

/-- `proposeNextOffer` (server.js:818-1029).  `deadline` stands for the
`dayjs` deadline formatting; rounding of the `0.30`/`0.97`/`1.10`
multiplications is computed exactly (the float evaluation agrees on the
inputs exercised here). -/
def proposeNextOffer (env : String → Option String) (deadline : String) (sess : VSess)
    (userText : String) : VResult :=
  let P := getNegotiationParams env
  let MIN_ROI := envInt env "NEGOTIATION_MIN_ROI_MULTIPLE" 3
  let RISK_FREE_DAYS := envInt env "NEGOTIATION_RISK_FREE_DAYS" 0
  let PROOFS := splitCommaClean ((env "NEGOTIATION_PROOF_BULLETS").getD "")
  let soft := match sess.soft_floor with | some v => some v | none => P.soft
  let hard := match sess.hard_floor with | some v => some v | none => P.hard
  let list := P.list
  let maxC := P.maxConcessions
  let concessions : Int := match sess.concessions_used with | some v => v | none => 0
  let phase : String :=
    match sess.meta.phase with
    | some p => if p = "" then "discovery" else p
    | none => "discovery"
  let n0 := (sess.meta.notes).getD emptyVNotes
  let userOffer : Option Int := (extractYenOffer userText).map (fun v => (v : Int))
  let n1 :=
    match userOffer with
    | some v => if v ≠ 0 then { n0 with budget_said := some v } else n0
    | none => n0
  let useEmpty1 : Bool := match n1.use with | some u => decide (u = "") | none => true
  let n2 :=
    if useEmpty1 && anyWordIn ["先延ばし", "締切", "期日", "習慣化", "生産性", "勉強",
        "受験", "副業", "仕事", "家事"] userText then
      { n1 with use := some (if userText.data.length > 40
          then (⟨userText.data.take 40⟩ : String) ++ "…" else userText) }
    else n1
  let n3 :=
    match scanHours userText.data with
    | some h => { n2 with hours_loss := some (h : Int) }
    | none => n2
  let n4 :=
    match scanRate userText.data with
    | some r => { n3 with hourly_rate := some (r : Int) }
    | none => n3
  let startEmpty : Bool := match n4.start with | some s => decide (s = "") | none => true
  let n5 :=
    if startEmpty then
      match firstWordMatch ["今日", "明日", "今週", "来週", "今月", "来月"] userText.data with
      | some w => { n4 with start := some w }
      | none => n4
    else n4
  let objectionHigh := anyWordIn ["高い", "予算", "出せない", "厳しい", "無理"] userText
  let objectionVendor := anyWordIn ["他社", "比較", "もっと安い", "無料", "タダ"] userText
  let hours : Int := (n5.hours_loss).getD 2
  let rate : Int := (n5.hourly_rate).getD 2500
  let monthlyLoss := hours * rate * 4
  let recover := ((2 * (monthlyLoss * 3) + 1000) / 2000) * 100
  let useEmpty5 : Bool := match n5.use with | some u => decide (u = "") | none => true
  if decide (phase = "discovery") && useEmpty5 then
    { accept := false, price := none, conditions := some none, concessions_used := none,
      message := "何に使う？一言で。（例：先延ばし対策／締切死守）",
      phase := some phase, notes := n5 }
  else
  let phase1 := if phase = "discovery" then "quantify" else phase
  if decide (phase1 = "quantify") && decide ((n5.hours_loss.getD 0) = 0) then
    { accept := false, price := none, conditions := some none, concessions_used := none,
      message := "週どれくらいムダ？数字で。（例：2時間）",
      phase := some phase1, notes := n5 }
  else if decide (phase1 = "quantify") && decide ((n5.hourly_rate.getD 0) = 0) then
    { accept := false, price := none, conditions := some none, concessions_used := none,
      message := "あなたの時給相当は？（例：2500円/時間）",
      phase := some phase1, notes := n5 }
  else
  let phase2 := if phase1 = "quantify" then "roi" else phase1
  if phase2 = "roi" then
    let bullets := ["現状損失(概算)：" ++ yenStr (some monthlyLoss) ++ "/月",
                    "改善見込み(30%)：" ++ yenStr (some recover) ++ "/月 回収"] ++
                   (PROOFS.map (fun p => "実績：" ++ p))
    { accept := false, price := none, conditions := some none, concessions_used := none,
      message := "前提はこれで置く：" ++ toString hours ++ "h/週 × " ++
        yenStr (some rate) ++ "/h。\n" ++
        String.intercalate "\n" (bullets.map (fun b => "- " ++ b)) ++
        "\n金額の話に入る。OK？（OK／修正）",
      phase := some "offer", notes := n5 }
  else if objectionHigh then
    { accept := false, price := jsOrNum sess.current_offer soft,
      conditions := match sess.conditions with | some cm => some cm | none => some none,
      concessions_used := none,
      message := "感覚でなく差益で判断。毎月の回収見込みは" ++ yenStr (some recover) ++
        "。先送りすればその分だけ損失が積み上がる。続ける？（続ける／やめる）",
      phase := some phase2, notes := n5 }
  else if objectionVendor then
    { accept := false, price := jsOrNum sess.current_offer soft,
      conditions := match sess.conditions with | some cm => some cm | none => some none,
      concessions_used := none,
      message := "比較軸は統一：①導入速度 ②締切遵守への寄与 ③実運用の強制力。\n" ++
        "このユースケースで最短に効果を出す前提で進める。続ける？（続ける／やめる）",
      phase := some phase2, notes := n5 }
  else if nTruthy userOffer && nGe userOffer soft then
    { accept := true, price := userOffer, conditions := some (some 1),
      concessions_used := none,
      message := "**" ++ yenStr userOffer ++ "/月**でいく（通常月額・個人向け）。" ++
        (if RISK_FREE_DAYS ≠ 0 then "初回" ++ toString RISK_FREE_DAYS ++
          "日は見合わなければ停止OK。" else "") ++
        "確定は **" ++ deadline ++ "** まで。進める。",
      phase := some "close", notes := n5 }
  else if phase2 = "offer" then
    let recommended : Option Int :=
      match hard with
      | none => none
      | some hv =>
        if MIN_ROI = 0 then
          match soft with
          | none => none
          | some _ => match list with
            | none => none
            | some lv => some (max hv lv)
        else
          let rounded := ((2 * recover + MIN_ROI * 100) / (2 * (MIN_ROI * 100))) * 100
          nClamp (nMax soft (some (max hv rounded))) hard list
    let alt : Option Int :=
      match recommended with
      | none => none
      | some rv =>
        nClamp (some (((2 * (rv * 11) + 1000) / 2000) * 100)) (some rv) (nMax list (some rv))
    { accept := false, price := recommended, conditions := some (some 1),
      concessions_used := some (concessions + 1),
      message :=
        (match n5.budget_said with
         | some b => "（あなたの目安 " ++ yenStr (some b) ++ " は把握。価値基準で決める）\n"
         | none => "") ++
        "提案は2択。\n- 推奨：**" ++ yenStr recommended ++ "/月**（通常月額）\n- 代替：" ++
        yenStr alt ++ "/月（いつでも停止）\n" ++
        (if RISK_FREE_DAYS ≠ 0 then "※初回" ++ toString RISK_FREE_DAYS ++
          "日はリスク最小で評価可\n" else "") ++
        "ROI前提：毎月 " ++ yenStr (some recover) ++ " 回収。価格＜回収で設計。\n" ++
        "確定は **" ++ deadline ++ "** まで。どちらで進める？（推奨／代替）",
      phase := some "close", notes := n5 }
  else if nTruthy userOffer && nLt userOffer hard then
    if nGe (some concessions) maxC then
      { accept := false, price := soft, conditions := some (some 1),
        concessions_used := some concessions,
        message := "価値を割る水準は不可。最終案：**" ++ yenStr soft ++ "/月**（通常月額）。\n" ++
          "毎月の回収見込み " ++ yenStr (some recover) ++ " は維持。確定は **" ++ deadline ++
          "** まで。進める？（はい／見送り）",
        phase := some phase2, notes := n5 }
    else
      let best : Option Int :=
        match soft with
        | none => none
        | some sv => nMax hard (some (((2 * (sv * 97) + 10000) / 20000) * 100))
      { accept := false, price := best, conditions := some (some 1),
        concessions_used := some (concessions + 1),
        message := "その水準は合わない。代替として **" ++ yenStr best ++ "/月**（通常月額）。\n" ++
          "価格＜回収（" ++ yenStr (some recover) ++ "）は崩さない。確定は **" ++ deadline ++
          "** まで。進める？（はい／他案）",
        phase := some phase2, notes := n5 }
  else
    { accept := false, price := jsOrNum sess.current_offer soft,
      conditions := match sess.conditions with | some cm => some cm | none => some (some 1),
      concessions_used := none,
      message := "価値＞価格の前提は保ったまま。**" ++ yenStr (jsOrNum sess.current_offer soft) ++
        "/月**で進める。確定は **" ++ deadline ++ "** まで。進める？（はい／他案）",
      phase := some phase2, notes := n5 }

/-! ## Context store (`getProfileContext`/`saveContext`, server.js:215-267) -/

/-- JSON scalar values the negotiation context stores. -/
inductive JVal where
  | null : JVal
  | str : String → JVal
  | num : Int → JVal
deriving DecidableEq, Repr

/-- A parsed context record: finite map from key to value (`none` = key
absent). -/
def ContextRec := String → Option JVal

/-- `getProfileContext` (server.js:215-239): the stored row's parsed JSON,
or `null` when absent (`JSON.parse ∘ JSON.stringify` round-trips the map). -/
def getProfileContext (stored : Option ContextRec) : Option ContextRec := stored

/-- `saveContext` (server.js:241-267):
`{...(current || {}), ...patch, updated_at: now}` upserted in place. -/
def saveContext (current : Option ContextRec) (patch : ContextRec) (now : String) :
    ContextRec :=
  fun k =>
    if k = "updated_at" then some (JVal.str now)
    else
      match patch k with
      | some v => some v
      | none =>
        match current with
        | some cur => cur k
        | none => none

/-! ## Invariants of the controller state -/

/-- A session's pricing fields come from the given ladder (they are set at
creation and never patched). -/
def fromLadder (s : Session) (L : Ladder) : Prop :=
  s.anchor_price = L.anchor ∧ s.steps = L.steps ∧ s.floor_yen = L.floor ∧
  s.hard_floor = L.floor ∧ s.soft_floor = L.floor

/-- Every session is priced by one of the three configured ladders. -/
def ladderOK (s : Session) : Prop :=
  fromLadder s LADDERS_student ∨ fromLadder s LADDERS_indie ∨ fromLadder s LADDERS_team

/-- Per-session invariant maintained by the controller. -/
def sessionInv (s : Session) : Prop :=
  ladderOK s ∧ s.hard_floor ≤ s.current_offer ∧ s.current_offer ≤ s.anchor_price ∧
  s.concessions_used = 0 ∧
  (s.state = SessState.agreed → s.final_price = some s.current_offer) ∧
  (s.state = SessState.opened → s.final_price = none)

/-- Session ids are the allocation indices: bounded by the row count and
unique. -/
def idsOK (ss : List Session) : Prop :=
  (∀ s ∈ ss, s.id < ss.length) ∧ (∀ s ∈ ss, ∀ t ∈ ss, s.id = t.id → s = t)

/-- While the context says `nego_step` and points at a session, that session
is still open. -/
def pointerOpen (st : GState) : Prop :=
  ∀ c, st.ctx = some c → c.last_state = some Stage.nego_step →
    ∀ sid, c.current_session_id = some sid →
      ∀ s ∈ st.sessions, s.id = sid → s.state = SessState.opened

/-- Global controller invariant. -/
def stInv (st : GState) : Prop :=
  (∀ s ∈ st.sessions, sessionInv s) ∧ idsOK st.sessions ∧ pointerOpen st

/-! ## Concrete traces used as witnesses and counterexamples -/

/-- Deterministic LLM stand-in: the classifier's catch-branch value. -/
def haggleOracle : String → String := fun _ => "haggle"

/-- Run the controller over a list of user messages starting from the empty
world. -/
def runFlow (texts : List String) : GState :=
  texts.foldl (fun st t => (handleNegotiationFlow haggleOracle "r" 0 "o" st t).st) ⟨none, []⟩

/-- Student funnel up to acceptance: trigger, goal, role, budget, accept. -/
def acceptTrace : GState := runFlow ["価格", "目的", "学生です", "500円", "はい"]

/-- …followed by a decline message after the agreement. -/
def acceptThenDeclineTrace : GState :=
  (handleNegotiationFlow haggleOracle "r" 1 "o" acceptTrace "やめる").st

/-- Indie funnel up to the standing anchor offer of 4900. -/
def indieOfferTrace : GState := runFlow ["価格", "目的", "個人でやってる", "いくらでも"]

/-- …followed by a counter-offer numerically equal to the standing offer. -/
def equalCounterTrace : GState :=
  (handleNegotiationFlow haggleOracle "r" 1 "o" indieOfferTrace "4900").st

/-- Indie funnel paused at the budget question. -/
def budgetStageTrace : GState := runFlow ["価格", "目的", "個人でやってる"]

/-- …answered with text containing no parseable number. -/
def garbageBudgetTrace : GState :=
  (handleNegotiationFlow haggleOracle "r" 1 "o" budgetStageTrace "さあ").st

/-- Environment with an inconsistent pricing configuration
(soft floor 100 strictly below hard floor 900). -/
def inconsistentEnv : String → Option String := fun k =>
  if k = "NEGOTIATION_SOFT_FLOOR_YEN" then some "100"
  else if k = "NEGOTIATION_HARD_FLOOR_YEN" then some "900"
  else none

/-- Empty environment: every `getNegotiationParams` default applies. -/
def defaultEnv : String → Option String := fun _ => none

/-- V5-engine session in the `close` phase with the default pricing
(soft 12900, hard 9900), offer standing at 12900 and no concession used. -/
def closePhaseSess : VSess :=
  { soft_floor := some 12900, hard_floor := some 9900, current_offer := some 12900,
    concessions_used := some 0, conditions := none,
    meta := { phase := some "close",
              notes := some { use := some "先延ばし対策", hours_loss := some 2,
                              hourly_rate := some 2500, start := none,
                              budget_said := none } } }

/-- `closePhaseSess` with the pricing state replaced: soft floor `so`, hard
floor `ha`, standing offer `cu`, concession count `co`. -/
def mkVSess (so ha cu co : Int) : VSess :=
  { closePhaseSess with soft_floor := some so, hard_floor := some ha,
                        current_offer := some cu, concessions_used := some co }

/-- Fallback session for `List.getD` in concrete statements (never selected
on the traces used). -/
def dSess : Session := createNegoSession 0 "indie" LADDERS_indie

/-- The context stored after `indieOfferTrace` (also the `c` argument for
instantiating the `nego_step` theorems there). -/
def indieOfferCtx : Ctx :=
  { last_state := some Stage.nego_step, purpose := some "目的",
    role := some "indie", budget_yen := none, constraint_reason := none,
    current_session_id := some 0 }

/-- Sample stored context record for the context-store theorems. -/
def demoCur : ContextRec := fun k => if k = "goal" then some (JVal.str "痩せる") else none

/-- Sample patch touching only the key `budget`. -/
def demoPatch : ContextRec := fun k => if k = "budget" then some (JVal.num 500) else none

end Kowaihito

namespace Kowaihito

/-! ## Basic lemmas about the offer engine and the session lists -/

theorem ladder_mem_bounds {s : Session} (hL : ladderOK s) :
    ∀ v ∈ s.steps, s.hard_floor ≤ v ∧ v ≤ s.anchor_price := by
  rcases hL with h | h | h <;>
    rcases h with ⟨ha, hs, _, hh, _⟩ <;> rw [hs, hh, ha] <;> decide

theorem stepAt_mem {steps : List Int} {idx : Int} {v : Int}
    (h : stepAt steps idx = some v) : v ∈ steps := by
  unfold stepAt at h
  split at h
  · exact List.get?_mem h
  · cases h

/-- `computeNextOffer` answers either a ladder step or the standing offer. -/
theorem computeNextOffer_offer_cases (s : Session) (cl : String) :
    (computeNextOffer s cl).offer ∈ s.steps ∨
      (computeNextOffer s cl).offer = s.current_offer := by
  unfold computeNextOffer
  dsimp only
  split
  · next v hv =>
    split
    · exact Or.inl (stepAt_mem hv)
    · right; rfl
  · right; rfl

/-- The engine never quotes below the hard floor nor above the anchor. -/
theorem computeNextOffer_bounds (s : Session) (cl : String) (hL : ladderOK s)
    (h1 : s.hard_floor ≤ s.current_offer) (h2 : s.current_offer ≤ s.anchor_price) :
    s.hard_floor ≤ (computeNextOffer s cl).offer ∧
      (computeNextOffer s cl).offer ≤ s.anchor_price := by
  rcases computeNextOffer_offer_cases s cl with h | h
  · exact ladder_mem_bounds hL _ h
  · rw [h]; exact ⟨h1, h2⟩

theorem mem_updateSessionAt {ss : List Session} {sid : Nat} {f : Session → Session}
    {x : Session} (hx : x ∈ updateSessionAt ss sid f) :
    ∃ s ∈ ss, x = if s.id = sid then f s else s := by
  unfold updateSessionAt at hx
  rcases List.mem_map.1 hx with ⟨s, hs, rfl⟩
  exact ⟨s, hs, rfl⟩

theorem updateSessionAt_id {ss : List Session} {sid : Nat} {f : Session → Session}
    (hid : ∀ s, (f s).id = s.id) {x : Session} (hx : x ∈ updateSessionAt ss sid f) :
    ∃ s ∈ ss, x.id = s.id := by
  rcases mem_updateSessionAt hx with ⟨s, hs, rfl⟩
  refine ⟨s, hs, ?_⟩
  split <;> simp [hid]

theorem idsOK_updateSessionAt {ss : List Session} {sid : Nat} {f : Session → Session}
    (hid : ∀ s, (f s).id = s.id) (h : idsOK ss) : idsOK (updateSessionAt ss sid f) := by
  obtain ⟨hb, hu⟩ := h
  constructor
  · intro x hx
    rcases mem_updateSessionAt hx with ⟨s, hs, rfl⟩
    have : (updateSessionAt ss sid f).length = ss.length := by
      simp [updateSessionAt]
    rw [this]
    have := hb s hs
    split <;> simp [hid, this]
  · intro x hx y hy hxy
    rcases mem_updateSessionAt hx with ⟨s, hs, rfl⟩
    rcases mem_updateSessionAt hy with ⟨t, ht, rfl⟩
    have hsx : (if s.id = sid then f s else s).id = s.id := by split <;> simp [hid]
    have hty : (if t.id = sid then f t else t).id = t.id := by split <;> simp [hid]
    have hst : s = t := hu s hs t ht (by rw [← hsx, ← hty, hxy])
    rw [hst]

/-! ## Preservation of `stInv` by each controller branch -/

theorem pointerOpen_of_not_nego {st : GState} {c : Ctx}
    (hc : st.ctx = some c) (h : c.last_state ≠ some Stage.nego_step) :
    pointerOpen st := by
  intro c' hc' hcl'
  rw [hc] at hc'
  cases hc'
  exact absurd hcl' h

theorem stInv_declineStep (now : Nat) {st : GState} (h : stInv st) :
    stInv (declineStep now st) := by
  obtain ⟨hsess, hids, -⟩ := h
  unfold declineStep
  cases hp : st.ctx.bind (fun c => c.current_session_id) with
  | none =>
    refine ⟨hsess, hids, ?_⟩
    intro c hc hcl
    cases hc
    simp [emptyCtx] at hcl
  | some sid =>
    refine ⟨?_, ?_, ?_⟩
    · intro x hx
      rcases mem_updateSessionAt hx with ⟨s, hs, rfl⟩
      obtain ⟨hL, h1, h2, h3, -, -⟩ := hsess s hs
      split
      · refine ⟨hL, h1, h2, h3, ?_, ?_⟩
        · intro hst; cases hst
        · intro hst; cases hst
      · exact hsess s hs
    · apply idsOK_updateSessionAt
      · intro s; rfl
      · exact hids
    · intro c hc hcl
      cases hc
      simp [emptyCtx] at hcl

theorem sessionInv_createNegoSession (id : Nat) (seg : String) :
    sessionInv (createNegoSession id seg (laddersGet seg)) := by
  unfold sessionInv
  refine ⟨?_, ?_, ?_, rfl, ?_, ?_⟩
  · unfold ladderOK fromLadder laddersGet
    split_ifs <;> simp [createNegoSession]
  · unfold laddersGet
    split_ifs <;>
      norm_num [createNegoSession, LADDERS_student, LADDERS_indie, LADDERS_team]
  · unfold laddersGet
    split_ifs <;>
      norm_num [createNegoSession, LADDERS_student, LADDERS_indie, LADDERS_team]
  · intro h
    exact absurd h (by simp [createNegoSession])
  · intro _
    rfl

theorem stInv_q3Step (roast trimmed : String) {st : GState} (c : Ctx)
    (hsess : ∀ s ∈ st.sessions, sessionInv s) (hids : idsOK st.sessions) :
    stInv (q3Step roast trimmed st c).1 := by
  unfold q3Step
  dsimp only
  refine ⟨?_, ?_, ?_⟩
  · intro x hx
    rcases mem_updateSessionAt hx with ⟨s, hs, rfl⟩
    rcases List.mem_append.1 hs with hs' | hs'
    · have hlt := hids.1 s hs'
      rw [if_neg (by omega)]
      exact hsess s hs'
    · simp only [List.mem_singleton] at hs'
      subst hs'
      have hinv := sessionInv_createNegoSession st.sessions.length
        (decideSegment (some { c with
          budget_yen := (extractBudgetAndReason trimmed).1,
          constraint_reason := (extractBudgetAndReason trimmed).2,
          last_state := some Stage.nego_step }))
      obtain ⟨hL, h1, h2, h3, h4, h5⟩ := hinv
      split
      · exact ⟨hL, h1, h2, h3, h4, h5⟩
      · exact ⟨hL, h1, h2, h3, h4, h5⟩
  · apply idsOK_updateSessionAt
    · intro s; rfl
    refine ⟨?_, ?_⟩
    · intro s hs
      rcases List.mem_append.1 hs with hs' | hs'
      · have := hids.1 s hs'
        simp only [List.length_append, List.length_singleton]
        omega
      · simp only [List.mem_singleton] at hs'
        subst hs'
        simp [createNegoSession]
    · intro s hs t ht hst
      rcases List.mem_append.1 hs with hs' | hs' <;>
        rcases List.mem_append.1 ht with ht' | ht'
      · exact hids.2 s hs' t ht' hst
      · exfalso
        simp only [List.mem_singleton] at ht'
        subst ht'
        have := hids.1 s hs'
        simp only [createNegoSession] at hst
        omega
      · exfalso
        simp only [List.mem_singleton] at hs'
        subst hs'
        have := hids.1 t ht'
        simp only [createNegoSession] at hst
        omega
      · simp only [List.mem_singleton] at hs' ht'
        rw [hs', ht']
  · intro c' hc' hcl' sid' hsid' x hx hxid
    cases hc'
    simp only [Option.some.injEq] at hsid'
    subst hsid'
    rcases mem_updateSessionAt hx with ⟨s, hs, rfl⟩
    rcases List.mem_append.1 hs with hs' | hs'
    · exfalso
      have hlt := hids.1 s hs'
      have hideq : (if s.id = st.sessions.length then
          { s with conversation_history := s.conversation_history ++ [⟨"bot", roast⟩] }
          else s).id = s.id := by split <;> rfl
      rw [hideq] at hxid
      omega
    · simp only [List.mem_singleton] at hs'
      subst hs'
      split <;> rfl

theorem mem_update2 {ss : List Session} {sid : Nat} {f g : Session → Session}
    {x : Session} (hx : x ∈ updateSessionAt (updateSessionAt ss sid f) sid g)
    (hfid : ∀ s, (f s).id = s.id) :
    ∃ s ∈ ss, x = if s.id = sid then g (f s) else s := by
  rcases mem_updateSessionAt hx with ⟨s1, hs1, rfl⟩
  rcases mem_updateSessionAt hs1 with ⟨s, hs, rfl⟩
  refine ⟨s, hs, ?_⟩
  by_cases hcase : s.id = sid
  · rw [if_pos hcase, if_pos hcase, if_pos (show (f s).id = sid by rw [hfid s]; exact hcase)]
  · rw [if_neg hcase, if_neg hcase, if_neg hcase]

theorem resolveSession_spec {st : GState} {c : Ctx} {sess : Session}
    (h : resolveSession st c = some sess)
    (hptrc : ∀ sid, c.current_session_id = some sid →
      ∀ s ∈ st.sessions, s.id = sid → s.state = SessState.opened) :
    sess ∈ st.sessions ∧ sess.state = SessState.opened := by
  unfold resolveSession at h
  cases hcp : c.current_session_id with
  | some sid =>
    rw [hcp] at h
    have hm := List.mem_of_find?_eq_some h
    have hp := List.find?_some h
    simp only [decide_eq_true_eq] at hp
    exact ⟨hm, hptrc sid hcp sess hm hp⟩
  | none =>
    rw [hcp] at h
    have hm := List.mem_of_find?_eq_some h
    have hp := List.find?_some h
    simp only [decide_eq_true_eq] at hp
    exact ⟨List.mem_reverse.1 hm, hp⟩

theorem stInv_acceptStep (now : Nat) (origin trimmed : String) {sess : Session}
    {st : GState} (c : Ctx)
    (hsess : ∀ s ∈ st.sessions, sessionInv s) (hids : idsOK st.sessions)
    (hmem : sess ∈ st.sessions) :
    stInv (acceptStep now origin trimmed sess st c).1 := by
  unfold acceptStep
  dsimp only
  refine ⟨?_, ?_, ?_⟩
  · intro x hx
    rcases mem_update2 hx (fun _ => rfl) with ⟨s, hs, rfl⟩
    split
    · next hcase =>
      have hseq : s = sess := hids.2 s hs sess hmem hcase
      obtain ⟨hL, h1, h2, h3, -, -⟩ := hsess s hs
      subst hseq
      refine ⟨hL, h1, h2, h3, ?_, ?_⟩
      · intro _; rfl
      · intro hst; cases hst
    · exact hsess s hs
  · apply idsOK_updateSessionAt
    · intro s; rfl
    · apply idsOK_updateSessionAt
      · intro s; rfl
      · exact hids
  · intro c' hc' hcl'
    cases hc'
    cases hcl'

theorem stInv_counterStep (oracle : String → String) (trimmed : String) {sess : Session}
    {st : GState} {c : Ctx}
    (hsess : ∀ s ∈ st.sessions, sessionInv s) (hids : idsOK st.sessions)
    (hmem : sess ∈ st.sessions) (hopen : sess.state = SessState.opened)
    (hptrc : ∀ sid, c.current_session_id = some sid →
      ∀ s ∈ st.sessions, s.id = sid → s.state = SessState.opened) :
    stInv (counterStep oracle trimmed sess st c).1 := by
  unfold counterStep
  dsimp only
  refine ⟨?_, ?_, ?_⟩
  · intro x hx
    rcases mem_update2 hx (fun _ => rfl) with ⟨s, hs, rfl⟩
    split
    · next hcase =>
      have hseq : s = sess := hids.2 s hs sess hmem hcase
      obtain ⟨hL, h1, h2, h3, h4, h5⟩ := hsess s hs
      subst hseq
      have hb := computeNextOffer_bounds s (classifyObjection oracle trimmed) hL h1 h2
      refine ⟨hL, hb.1, hb.2, h3, ?_, ?_⟩
      · intro hst
        have himp : SessState.opened = SessState.agreed := by
          rw [← hopen]; exact hst
        cases himp
      · intro _
        exact h5 hopen
    · exact hsess s hs
  · apply idsOK_updateSessionAt
    · intro s; rfl
    · apply idsOK_updateSessionAt
      · intro s; rfl
      · exact hids
  · intro c' hc' hcl' sid hsid x hx hxid
    cases hc'
    rcases mem_update2 hx (fun _ => rfl) with ⟨s, hs, rfl⟩
    by_cases hcase : s.id = sess.id
    · rw [if_pos hcase] at hxid ⊢
      exact hptrc sid hsid s hs hxid
    · rw [if_neg hcase] at hxid ⊢
      exact hptrc sid hsid s hs hxid

/-- One controller invocation preserves the global invariant. -/
theorem stInv_step (oracle : String → String) (roast : String) (now : Nat)
    (origin text : String) {st : GState} (h : stInv st) :
    stInv (handleNegotiationFlow oracle roast now origin st text).st := by
  obtain ⟨hsess, hids, hptr⟩ := h
  unfold handleNegotiationFlow
  cases hctx : st.ctx with
  | none =>
    simp only [Option.none_bind]
    by_cases hstart : negotiationStartTest (jsTrim text) = true
    · simp only [if_pos hstart]
      exact ⟨hsess, hids, pointerOpen_of_not_nego rfl (by decide)⟩
    · simp only [if_neg hstart]
      exact ⟨hsess, hids, hptr⟩
  | some c0 =>
    simp only [Option.some_bind, Option.getD_some]
    cases hcl : c0.last_state with
    | none =>
      by_cases hstart : negotiationStartTest (jsTrim text) = true
      · simp only [if_pos hstart]
        exact ⟨hsess, hids, pointerOpen_of_not_nego rfl (by decide)⟩
      · simp only [if_neg hstart]
        exact ⟨hsess, hids, hptr⟩
    | some stg =>
      by_cases hdec : declineTest (jsTrim text) = true
      · simp only [if_pos hdec]
        exact stInv_declineStep now ⟨hsess, hids, hptr⟩
      · simp only [if_neg hdec]
        by_cases hclose : stg = Stage.close ∧
            (negotiationStartTest (jsTrim text) || closeRetriggerTest (jsTrim text)) = true
        · simp only [if_pos hclose]
          exact ⟨hsess, hids, pointerOpen_of_not_nego rfl (by decide)⟩
        · simp only [if_neg hclose]
          cases stg with
          | onboarding_q1 =>
            exact ⟨hsess, hids, pointerOpen_of_not_nego rfl (by simp [q1Step])⟩
          | onboarding_q2 =>
            exact ⟨hsess, hids, pointerOpen_of_not_nego rfl (by simp [q2Step])⟩
          | onboarding_q3 =>
            exact stInv_q3Step roast (jsTrim text) _ hsess hids
          | nego_step =>
            have hptrc : ∀ sid, c0.current_session_id = some sid →
                ∀ s ∈ st.sessions, s.id = sid → s.state = SessState.opened :=
              fun sid hsid s hs hid => hptr c0 hctx hcl sid hsid s hs hid
            cases hres : resolveSession st c0 with
            | none =>
              refine ⟨hsess, hids, ?_⟩
              intro c' hc' hcl'
              cases hc'
              cases hcl'
            | some sess =>
              have hrs := resolveSession_spec hres hptrc
              by_cases hacc : acceptTest (jsTrim text) = true
              · simp only [if_pos hacc]
                exact stInv_acceptStep now origin (jsTrim text) _ hsess hids hrs.1
              · simp only [if_neg hacc]
                exact stInv_counterStep oracle (jsTrim text) hsess hids hrs.1 hrs.2 hptrc
          | close =>
            exact ⟨hsess, hids, hptr⟩

/-- Every reachable world satisfies the global invariant. -/
theorem stInv_reach {st : GState} (h : Reach st) : stInv st := by
  induction h with
  | init =>
    refine ⟨?_, ⟨?_, ?_⟩, ?_⟩
    · intro s hs; cases hs
    · intro s hs; cases hs
    · intro s hs; cases hs
    · intro c hc; cases hc
  | follow _ ih =>
    obtain ⟨hsess, hids, -⟩ := ih
    exact ⟨hsess, hids, pointerOpen_of_not_nego rfl (by decide)⟩
  | step oracle roast now origin text _ ih =>
    exact stInv_step oracle roast now origin text ih

theorem reach_runFlow_aux (texts : List String) {st : GState} (h : Reach st) :
    Reach (texts.foldl
      (fun st t => (handleNegotiationFlow haggleOracle "r" 0 "o" st t).st) st) := by
  induction texts generalizing st with
  | nil => exact h
  | cons t ts ih => exact ih (Reach.step haggleOracle "r" 0 "o" t h)

theorem reach_runFlow (texts : List String) : Reach (runFlow texts) :=
  reach_runFlow_aux texts Reach.init

theorem reach_acceptThenDeclineTrace : Reach acceptThenDeclineTrace :=
  Reach.step haggleOracle "r" 1 "o" "やめる" (reach_runFlow _)

theorem reach_equalCounterTrace : Reach equalCounterTrace :=
  Reach.step haggleOracle "r" 1 "o" "4900" (reach_runFlow _)

/-! ## The claims -/

/-- C1: for every negotiation session, at every point of its lifetime under
the controller (creation in `createNegoSession`, every `computeNextOffer`
update written by the present-offer handling, finalization and
cancellation), the session's current offer satisfies
`hard_floor ≤ current_offer ≤ anchor_price`. -/
theorem c1_offer_within_floor_and_anchor {st : GState} (h : Reach st) :
    ∀ s ∈ st.sessions,
      s.hard_floor ≤ s.current_offer ∧ s.current_offer ≤ s.anchor_price := by
  intro s hs
  obtain ⟨hsess, -, -⟩ := stInv_reach h
  obtain ⟨-, h1, h2, -, -, -⟩ := hsess s hs
  exact ⟨h1, h2⟩

/-- Witness for C1 on the session of the concrete indie funnel trace. -/
theorem c1_offer_within_floor_and_anchor_witness :
    (indieOfferTrace.sessions.getD 0 dSess).hard_floor ≤
        (indieOfferTrace.sessions.getD 0 dSess).current_offer ∧
      (indieOfferTrace.sessions.getD 0 dSess).current_offer ≤
        (indieOfferTrace.sessions.getD 0 dSess).anchor_price :=
  c1_offer_within_floor_and_anchor
    (reach_runFlow ["価格", "目的", "個人でやってる", "いくらでも"]) _ (by decide)

/-- C5 counterexample: after the user accepts (session `agreed`,
`final_price` 3000) a later decline message flips the session to
`cancelled` without clearing `final_price`, so "final_price is set iff
state = agreed" is false on this reachable state. -/
theorem c5_counterexample_final_price_on_cancelled :
    (acceptThenDeclineTrace.sessions.map (fun s => (s.state, s.final_price))) =
      [(SessState.cancelled, some 3000)] := by decide

/-- C5 amended: `state = agreed` implies `final_price = some current_offer`
(the offer at the moment of finalization, which is never changed
afterwards), and an `open` session has no `final_price`; but a session
cancelled after agreement keeps its `final_price`, so "set only if agreed"
fails (see the counterexample). -/
theorem c5_amended_final_price {st : GState} (h : Reach st) :
    ∀ s ∈ st.sessions,
      (s.state = SessState.agreed → s.final_price = some s.current_offer) ∧
      (s.state = SessState.opened → s.final_price = none) := by
  intro s hs
  obtain ⟨hsess, -, -⟩ := stInv_reach h
  obtain ⟨-, -, -, -, h4, h5⟩ := hsess s hs
  exact ⟨h4, h5⟩

/-- Witness for C5 (amended) on the accepted session of the student trace. -/
theorem c5_amended_final_price_witness :
    (acceptTrace.sessions.getD 0 dSess).final_price =
      some (acceptTrace.sessions.getD 0 dSess).current_offer :=
  (c5_amended_final_price
    (reach_runFlow ["価格", "目的", "学生です", "500円", "はい"]) _ (by decide)).1
    (by decide)

/-- C4 counterexample: the session of `acceptTrace` is `agreed` (it left
`open` once), yet the controller processes a subsequent decline message
from the same user and re-closes it as `cancelled`, re-stamping
`completed_at`: `agreed` is not terminal. -/
theorem c4_counterexample_agreed_then_cancelled :
    (acceptTrace.sessions.map (fun s => (s.state, s.completed_at))) =
        [(SessState.agreed, some 0)] ∧
      declineTest (jsTrim "やめる") = true ∧
      (acceptThenDeclineTrace.sessions.map (fun s => (s.state, s.completed_at))) =
        [(SessState.cancelled, some 1)] := by decide

/-- C9 counterexample: with soft floor 100 strictly below hard floor 900 in
the environment (violating `soft_floor ≥ hard_floor`),
`getNegotiationParams` performs no validation and returns the inconsistent
parameters as ordinary values — there is no failure path. -/
theorem c9_counterexample_inconsistent_config_accepted :
    getNegotiationParams inconsistentEnv =
      { list := some 15000, soft := some 100, hard := some 900,
        variancePct := some 8, maxConcessions := some 2 } ∧
    specParamsConsistent (getNegotiationParams inconsistentEnv) = false := by decide

/-- C9 amended: `getNegotiationParams` reads each parameter with
per-variable fallbacks and defaults and returns whatever parses, with no
consistency check and no failure: even when the parsed soft floor is
strictly below the parsed hard floor the record is returned unchanged and
fails the spec's validation predicate. -/
theorem c9_amended_no_validation (env : String → Option String) (ls hs : String)
    (x y : Int)
    (hls : env "NEGOTIATION_SOFT_FLOOR_YEN" = some ls)
    (hhs : env "NEGOTIATION_HARD_FLOOR_YEN" = some hs)
    (hlsne : ¬ls = "") (hhsne : ¬hs = "")
    (hx : jsParseInt (cleanStr ls) = some x) (hy : jsParseInt (cleanStr hs) = some y)
    (hxy : x < y) :
    (getNegotiationParams env).soft = some x ∧
    (getNegotiationParams env).hard = some y ∧
    specParamsConsistent (getNegotiationParams env) = false := by
  unfold getNegotiationParams envOr
  rw [hls, hhs]
  simp only [if_neg hlsne, if_neg hhsne]
  refine ⟨hx, hy, ?_⟩
  unfold specParamsConsistent
  rw [hx, hy]
  have ha : decide (x ≥ y) = false := decide_eq_false (not_le.2 hxy)
  cases jsParseInt (cleanStr (match env "NEGOTIATION_LIST_PRICE_YEN" with
    | some s => if s = "" then (match env "NEGOTIATION_ANCHOR_YEN" with
        | some s2 => if s2 = "" then "15000" else s2
        | none => "15000") else s
    | none => (match env "NEGOTIATION_ANCHOR_YEN" with
        | some s2 => if s2 = "" then "15000" else s2
        | none => "15000"))) with
  | none => rfl
  | some lv => simp [ha]

/-- Witness for C9 (amended) at the concrete inconsistent environment. -/
theorem c9_amended_no_validation_witness :
    (getNegotiationParams inconsistentEnv).soft = some 100 ∧
    (getNegotiationParams inconsistentEnv).hard = some 900 ∧
    specParamsConsistent (getNegotiationParams inconsistentEnv) = false :=
  c9_amended_no_validation inconsistentEnv "100" "900" 100 900 rfl rfl
    (by decide) (by decide) (by decide) (by decide) (by decide)

/-- C8: numeric extraction agrees on the locale renderings of 12000: the
explicit digits, the full-width comma-grouped digits, and the `万`, `千`
and `k` unit suffixes multiplied by 10000, 1000 and 1000 respectively. -/
theorem c8_extraction_locale_tolerant :
    extractYenOffer "1.2万" = some 12000 ∧ extractYenOffer "12000" = some 12000 ∧
    extractYenOffer "１２，０００" = some 12000 ∧ extractYenOffer "12k" = some 12000 ∧
    extractYenOffer "12千" = some 12000 ∧ extractYenOffer "3万" = some 30000 := by
  decide

/-- C10: a `saveContext` upsert preserves every stored key that is not in
the patch, overwrites exactly the patched keys, refreshes `updated_at`, and
a subsequent `getProfileContext` returns exactly that merge. -/
theorem c10_saveContext_frame (current patch : ContextRec) (now k : String)
    (hk : ¬k = "updated_at") :
    (patch k = none → saveContext (some current) patch now k = current k) ∧
    (∀ v, patch k = some v → saveContext (some current) patch now k = some v) ∧
    saveContext (some current) patch now "updated_at" = some (JVal.str now) ∧
    getProfileContext (some (saveContext (some current) patch now)) =
      some (saveContext (some current) patch now) := by
  refine ⟨?_, ?_, ?_, rfl⟩
  · intro hp
    unfold saveContext
    rw [if_neg hk, hp]
  · intro v hp
    unfold saveContext
    rw [if_neg hk, hp]
  · unfold saveContext
    rw [if_pos rfl]

/-- Witness for C10: patching `budget` leaves `goal` untouched. -/
theorem c10_saveContext_frame_witness :
    saveContext (some demoCur) demoPatch "t0" "goal" = demoCur "goal" :=
  (c10_saveContext_frame demoCur demoPatch "t0" "goal" (by decide)).1 (by decide)

theorem ite_update_id {a : Session} {sid : Nat} {f : Session → Session}
    (hf : ∀ s, (f s).id = s.id) :
    (if a.id = sid then f a else a).id = a.id := by
  split
  · exact hf a
  · rfl

theorem map_state_updateSessionAt {ss : List Session} {sid : Nat}
    {f : Session → Session} (hstate : ∀ s, (f s).state = s.state) :
    (updateSessionAt ss sid f).map (fun s => s.state) = ss.map (fun s => s.state) := by
  unfold updateSessionAt
  rw [List.map_map]
  apply List.map_congr_left
  intro s _
  by_cases h : s.id = sid
  · simp only [Function.comp_apply, if_pos h, hstate]
  · simp only [Function.comp_apply, if_neg h]

/-- Normal form of a controller invocation in the `nego_step` stage without
a decline message. -/
theorem hnf_nego_eq (oracle : String → String) (roast : String) (now : Nat)
    (origin text : String) (st : GState) (c : Ctx)
    (hctx : st.ctx = some c) (hcl : c.last_state = some Stage.nego_step)
    (hdec : declineTest (jsTrim text) = false) :
    handleNegotiationFlow oracle roast now origin st text =
      match resolveSession st c with
      | none =>
        ⟨true, { st with ctx := some emptyCtx },
         some "セッションが見つからない。もう一度「交渉」と送れ。"⟩
      | some sess =>
        if acceptTest (jsTrim text) = true then
          ⟨true, (acceptStep now origin (jsTrim text) sess st c).1,
           some (acceptStep now origin (jsTrim text) sess st c).2⟩
        else
          ⟨true, (counterStep oracle (jsTrim text) sess st c).1,
           some (counterStep oracle (jsTrim text) sess st c).2⟩ := by
  unfold handleNegotiationFlow
  rw [hctx]
  simp only [Option.some_bind, Option.getD_some]
  rw [hcl]
  dsimp only
  rw [if_neg (by simp [hdec]), if_neg (by simp)]

/-- Normal form of a controller invocation in the budget stage
(`onboarding_q3`) without a decline message. -/
theorem hnf_q3_eq (oracle : String → String) (roast : String) (now : Nat)
    (origin text : String) (st : GState) (c : Ctx)
    (hctx : st.ctx = some c) (hcl : c.last_state = some Stage.onboarding_q3)
    (hdec : declineTest (jsTrim text) = false) :
    handleNegotiationFlow oracle roast now origin st text =
      ⟨true, (q3Step roast (jsTrim text) st c).1, some (q3Step roast (jsTrim text) st c).2⟩ := by
  unfold handleNegotiationFlow
  rw [hctx]
  simp only [Option.some_bind, Option.getD_some]
  rw [hcl]
  dsimp only
  rw [if_neg (by simp [hdec]), if_neg (by simp)]

/-- C7: with no stored stage, the controller declines every non-trigger
message untouched and claims a trigger message while storing the first
funnel stage; with any stored stage (mid-funnel resume or `close`), every
message is claimed, so arbitrary text continues the negotiation. -/
theorem c7_handled_contract (oracle : String → String) (roast : String) (now : Nat)
    (origin text : String) (st : GState) :
    (st.ctx.bind (fun c => c.last_state) = none →
      negotiationStartTest (jsTrim text) = false →
      (handleNegotiationFlow oracle roast now origin st text).handled = false ∧
      (handleNegotiationFlow oracle roast now origin st text).st = st) ∧
    (st.ctx.bind (fun c => c.last_state) = none →
      negotiationStartTest (jsTrim text) = true →
      (handleNegotiationFlow oracle roast now origin st text).handled = true ∧
      ((handleNegotiationFlow oracle roast now origin st text).st.ctx.bind
        (fun c => c.last_state)) = some Stage.onboarding_q1) ∧
    (∀ stg, st.ctx.bind (fun c => c.last_state) = some stg →
      (handleNegotiationFlow oracle roast now origin st text).handled = true) := by
  unfold handleNegotiationFlow
  refine ⟨?_, ?_, ?_⟩
  · intro h0 h1
    rw [h0]
    simp [h1]
  · intro h0 h1
    rw [h0]
    simp [h1, startCtx, emptyCtx]
  · intro stg h0
    rw [h0]
    by_cases hdec : declineTest (jsTrim text) = true
    · simp [hdec]
    · simp only [if_neg hdec]
      by_cases hclose : stg = Stage.close ∧
          (negotiationStartTest (jsTrim text) || closeRetriggerTest (jsTrim text)) = true
      · simp [hclose]
      · simp only [if_neg hclose]
        cases stg
        · rfl
        · rfl
        · rfl
        · cases hres : resolveSession st (st.ctx.getD emptyCtx)
          · rfl
          · by_cases hacc : acceptTest (jsTrim text) = true
            · simp only [if_pos hacc]
            · simp only [if_neg hacc]
        · rfl

/-- Witness for C7 at the empty world and a non-trigger message. -/
theorem c7_handled_contract_witness :
    (handleNegotiationFlow haggleOracle "r" 0 "o" ⟨none, []⟩ "こんにちは").handled = false ∧
    (handleNegotiationFlow haggleOracle "r" 0 "o" ⟨none, []⟩ "こんにちは").st = ⟨none, []⟩ :=
  (c7_handled_contract haggleOracle "r" 0 "o" "こんにちは" ⟨none, []⟩).1 rfl (by decide)

/-- C3 counterexample: in `present_offer` (`nego_step`) with the standing
offer 4900, the message "4900" — a number equal to the current offer — does
not finalize the session: it stays `open` (only an explicit acceptance
phrase finalizes; the engine never compares the stated number with the
offer). -/
theorem c3_counterexample_equal_offer_no_finalize :
    extractYenOffer "4900" = some 4900 ∧
    (indieOfferTrace.ctx.bind (fun c => c.last_state)) = some Stage.nego_step ∧
    (indieOfferTrace.sessions.map (fun s => s.current_offer)) = [4900] ∧
    acceptTest (jsTrim "4900") = false ∧
    (equalCounterTrace.sessions.map (fun s => (s.state, s.final_price))) =
      [(SessState.opened, none)] := by decide

/-- C3 amended: in `nego_step` (no decline message) the session finalizes
exactly on an `ACCEPT_REGEX` match: a non-accept message — whatever number
it contains, including one equal to or above `current_offer` — leaves every
session state unchanged, while an accept message closes the resolved
session `agreed` at its standing `current_offer`. -/
theorem c3_amended_accept_only_finalizes (oracle : String → String) (roast : String)
    (now : Nat) (origin text : String) (st : GState) (c : Ctx)
    (hctx : st.ctx = some c) (hcl : c.last_state = some Stage.nego_step)
    (hdec : declineTest (jsTrim text) = false) :
    (acceptTest (jsTrim text) = false →
      ((handleNegotiationFlow oracle roast now origin st text).st.sessions.map
        (fun s => s.state)) = st.sessions.map (fun s => s.state)) ∧
    (∀ sess, acceptTest (jsTrim text) = true → resolveSession st c = some sess →
      ∀ x ∈ (handleNegotiationFlow oracle roast now origin st text).st.sessions,
        x.id = sess.id →
          x.state = SessState.agreed ∧ x.final_price = some sess.current_offer) := by
  rw [hnf_nego_eq oracle roast now origin text st c hctx hcl hdec]
  constructor
  · intro hacc
    cases hres : resolveSession st c
    · rfl
    · simp only [if_neg (by simp [hacc] : ¬acceptTest (jsTrim text) = true)]
      unfold counterStep
      dsimp only
      rw [map_state_updateSessionAt, map_state_updateSessionAt]
      · intro s; rfl
      · intro s; rfl
  · intro sess hacc hres
    rw [hres]
    simp only [if_pos hacc]
    intro x hx hxid
    unfold acceptStep at hx
    dsimp only at hx
    rcases mem_update2 hx (fun _ => rfl) with ⟨u, hu, rfl⟩
    by_cases hcase : u.id = sess.id
    · rw [if_pos hcase]
      exact ⟨rfl, rfl⟩
    · rw [if_neg hcase] at hxid ⊢
      exact absurd hxid hcase

/-- Witness for C3 (amended): the equal counter-offer "4900" leaves the
session states of the indie trace unchanged. -/
theorem c3_amended_accept_only_finalizes_witness :
    ((handleNegotiationFlow haggleOracle "r" 1 "o" indieOfferTrace "4900").st.sessions.map
      (fun s => s.state)) = indieOfferTrace.sessions.map (fun s => s.state) :=
  (c3_amended_accept_only_finalizes haggleOracle "r" 1 "o" "4900" indieOfferTrace
    indieOfferCtx (by decide) (by decide) (by decide)).1 (by decide)

/-- C4 amended: a closed session's state survives every controller
operation except the decline branch: (1) when the message is not a decline,
every session that is not `open` keeps its state (closing is never repeated
and closed sessions are not reopened); (2) but a decline message sent while
any stage is stored cancels the context-referenced session unconditionally,
regardless of its current state — in particular an `agreed` session can
later be flipped to `cancelled` (see the counterexample). -/
theorem c4_amended_terminal_except_decline (oracle : String → String) (roast : String)
    (now : Nat) (origin text : String) {st : GState} (hre : Reach st) :
    (∀ s ∈ st.sessions, ¬s.state = SessState.opened →
      declineTest (jsTrim text) = false →
      ∀ x ∈ (handleNegotiationFlow oracle roast now origin st text).st.sessions,
        x.id = s.id → x.state = s.state) ∧
    (∀ c stg sid, st.ctx = some c → c.last_state = some stg →
      declineTest (jsTrim text) = true → c.current_session_id = some sid →
      ∀ x ∈ (handleNegotiationFlow oracle roast now origin st text).st.sessions,
        x.id = sid → x.state = SessState.cancelled) := by
  obtain ⟨hsess, hids, hptr⟩ := stInv_reach hre
  constructor
  · intro s hs hsopen hdecf
    unfold handleNegotiationFlow
    cases hctx : st.ctx with
    | none =>
      simp only [Option.none_bind]
      by_cases hstart : negotiationStartTest (jsTrim text) = true
      · simp only [if_pos hstart]
        intro x hx hxid
        rw [hids.2 x hx s hs hxid]
      · simp only [if_neg hstart]
        intro x hx hxid
        rw [hids.2 x hx s hs hxid]
    | some c0 =>
      simp only [Option.some_bind, Option.getD_some]
      cases hcl : c0.last_state with
      | none =>
        dsimp only
        by_cases hstart : negotiationStartTest (jsTrim text) = true
        · simp only [if_pos hstart]
          intro x hx hxid
          rw [hids.2 x hx s hs hxid]
        · simp only [if_neg hstart]
          intro x hx hxid
          rw [hids.2 x hx s hs hxid]
      | some stg =>
        dsimp only
        rw [if_neg (by simp [hdecf])]
        by_cases hclose : stg = Stage.close ∧
            (negotiationStartTest (jsTrim text) || closeRetriggerTest (jsTrim text)) = true
        · simp only [if_pos hclose]
          intro x hx hxid
          rw [hids.2 x hx s hs hxid]
        · simp only [if_neg hclose]
          cases stg with
          | onboarding_q1 =>
            intro x hx hxid
            rw [hids.2 x hx s hs hxid]
          | onboarding_q2 =>
            intro x hx hxid
            rw [hids.2 x hx s hs hxid]
          | onboarding_q3 =>
            unfold q3Step
            dsimp only
            intro x hx hxid
            rcases mem_updateSessionAt hx with ⟨u, hu, rfl⟩
            rcases List.mem_append.1 hu with hu' | hu'
            · have hult := hids.1 u hu'
              rw [if_neg (by omega)] at hxid ⊢
              rw [hids.2 u hu' s hs hxid]
            · exfalso
              have hufid : u.id = st.sessions.length := by
                simp only [List.mem_singleton] at hu'
                rw [hu']
                rfl
              have hslt := hids.1 s hs
              by_cases hcase : u.id = st.sessions.length
              · rw [if_pos hcase] at hxid
                have hxid2 : u.id = s.id := hxid
                omega
              · exact hcase hufid
          | nego_step =>
            have hptrc : ∀ sid, c0.current_session_id = some sid →
                ∀ u ∈ st.sessions, u.id = sid → u.state = SessState.opened :=
              fun sid hsid u hu hid => hptr c0 hctx hcl sid hsid u hu hid
            cases hres : resolveSession st c0 with
            | none =>
              intro x hx hxid
              rw [hids.2 x hx s hs hxid]
            | some sess =>
              have hrs := resolveSession_spec hres hptrc
              by_cases hacc : acceptTest (jsTrim text) = true
              · simp only [if_pos hacc]
                unfold acceptStep
                dsimp only
                intro x hx hxid
                rcases mem_update2 hx (fun _ => rfl) with ⟨u, hu, rfl⟩
                by_cases hcase : u.id = sess.id
                · exfalso
                  rw [if_pos hcase] at hxid
                  have husess : s = sess := by
                    apply hids.2 s hs sess hrs.1
                    rw [← hxid, hcase]
                  exact hsopen (husess ▸ hrs.2)
                · rw [if_neg hcase] at hxid ⊢
                  rw [hids.2 u hu s hs hxid]
              · simp only [if_neg hacc]
                unfold counterStep
                dsimp only
                intro x hx hxid
                rcases mem_update2 hx (fun _ => rfl) with ⟨u, hu, rfl⟩
                by_cases hcase : u.id = sess.id
                · rw [if_pos hcase] at hxid ⊢
                  rw [hids.2 u hu s hs hxid]
                · rw [if_neg hcase] at hxid ⊢
                  rw [hids.2 u hu s hs hxid]
          | close =>
            intro x hx hxid
            rw [hids.2 x hx s hs hxid]
  · intro c stg sid hctx hcl hdect hsid
    unfold handleNegotiationFlow
    rw [hctx]
    simp only [Option.some_bind]
    rw [hcl]
    dsimp only
    rw [if_pos hdect]
    unfold declineStep
    rw [hctx]
    simp only [Option.some_bind]
    rw [hsid]
    intro x hx hxid
    rcases mem_updateSessionAt hx with ⟨u, hu, rfl⟩
    by_cases hcase : u.id = sid
    · rw [if_pos hcase]
    · rw [if_neg hcase] at hxid ⊢
      exact absurd hxid hcase

/-- Witness for C4 (amended): a non-decline message after agreement leaves
the agreed session's state unchanged. -/
theorem c4_amended_terminal_except_decline_witness :
    ((handleNegotiationFlow haggleOracle "r" 2 "o" acceptTrace "こんにちは").st.sessions.getD
        0 dSess).state = (acceptTrace.sessions.getD 0 dSess).state :=
  (c4_amended_terminal_except_decline haggleOracle "r" 2 "o" "こんにちは"
    (reach_runFlow ["価格", "目的", "学生です", "500円", "はい"])).1
    (acceptTrace.sessions.getD 0 dSess) (by decide) (by decide) (by decide)
    ((handleNegotiationFlow haggleOracle "r" 2 "o" acceptTrace "こんにちは").st.sessions.getD
        0 dSess) (by decide) (by decide)

/-- C6 counterexample: a budget-stage message from which no number can be
extracted ("さあ") still advances the funnel: the stage moves from
`onboarding_q3` to `nego_step`, `budget_yen` is stored as `null` and a
session is created — the stage is not re-prompted in place. -/
theorem c6_counterexample_budget_stage_always_advances :
    extractBudgetAndReason "さあ" = (none, none) ∧
    (budgetStageTrace.ctx.bind (fun c => c.last_state)) = some Stage.onboarding_q3 ∧
    budgetStageTrace.sessions.length = 0 ∧
    (garbageBudgetTrace.ctx.bind (fun c => c.last_state)) = some Stage.nego_step ∧
    garbageBudgetTrace.sessions.length = 1 := by decide

/-- C6 amended: the budget stage always advances: for every non-decline
message — parseable or not — the controller stores the extraction result
(possibly `null`) as `budget_yen`, moves the stage to `nego_step`, creates
exactly one new session (anchored at the ladder of the decided segment,
which falls back to `indie` when no budget/role signal exists) and points
the context at it; no re-prompt without advancing exists. -/
theorem c6_amended_budget_stage (oracle : String → String) (roast : String)
    (now : Nat) (origin text : String) (st : GState) (c : Ctx)
    (hctx : st.ctx = some c) (hcl : c.last_state = some Stage.onboarding_q3)
    (hdec : declineTest (jsTrim text) = false) :
    ((handleNegotiationFlow oracle roast now origin st text).st.ctx.map
      (fun c' => c'.last_state)) = some (some Stage.nego_step) ∧
    ((handleNegotiationFlow oracle roast now origin st text).st.ctx.map
      (fun c' => c'.budget_yen)) = some (extractBudgetAndReason (jsTrim text)).1 ∧
    ((handleNegotiationFlow oracle roast now origin st text).st.ctx.map
      (fun c' => c'.current_session_id)) = some (some st.sessions.length) ∧
    (handleNegotiationFlow oracle roast now origin st text).st.sessions.length =
      st.sessions.length + 1 := by
  rw [hnf_q3_eq oracle roast now origin text st c hctx hcl hdec]
  unfold q3Step
  dsimp only
  refine ⟨rfl, rfl, rfl, ?_⟩
  unfold updateSessionAt
  simp

/-- Witness for C6 (amended) at the unparseable budget message "さあ". -/
theorem c6_amended_budget_stage_witness :
    ((handleNegotiationFlow haggleOracle "r" 1 "o" budgetStageTrace "さあ").st.ctx.map
      (fun c' => c'.last_state)) = some (some Stage.nego_step) ∧
    ((handleNegotiationFlow haggleOracle "r" 1 "o" budgetStageTrace "さあ").st.ctx.map
      (fun c' => c'.budget_yen)) = some (extractBudgetAndReason (jsTrim "さあ")).1 ∧
    ((handleNegotiationFlow haggleOracle "r" 1 "o" budgetStageTrace "さあ").st.ctx.map
      (fun c' => c'.current_session_id)) = some (some budgetStageTrace.sessions.length) ∧
    (handleNegotiationFlow haggleOracle "r" 1 "o" budgetStageTrace "さあ").st.sessions.length =
      budgetStageTrace.sessions.length + 1 :=
  c6_amended_budget_stage haggleOracle "r" 1 "o" "さあ" budgetStageTrace
    { last_state := some Stage.onboarding_q3, purpose := some "目的",
      role := some "indie", budget_yen := none, constraint_reason := none,
      current_session_id := none }
    (by decide) (by decide) (by decide)

/-- C2 counterexample: in the V5 engine, a counter-offer of 10000 — strictly
below the standing offer 12900 but at or above the hard floor 9900, with
`concessions_used = 0` below the maximum 2 — does NOT get "one step down
with `concessions_used` incremented": the engine holds at the standing
offer and returns no `concessions_used` at all. -/
theorem c2_counterexample_mid_band_holds :
    extractYenOffer "10000" = some 10000 ∧
    closePhaseSess.hard_floor = some 9900 ∧
    closePhaseSess.current_offer = some 12900 ∧
    closePhaseSess.concessions_used = some 0 ∧
    (getNegotiationParams defaultEnv).maxConcessions = some 2 ∧
    (9900 : Int) ≤ 10000 ∧ (10000 : Int) < 12900 ∧ (0 : Int) < 2 ∧
    (proposeNextOffer defaultEnv "D" closePhaseSess "10000").accept = false ∧
    (proposeNextOffer defaultEnv "D" closePhaseSess "10000").price = some 12900 ∧
    (proposeNextOffer defaultEnv "D" closePhaseSess "10000").concessions_used = none := by
  decide

set_option maxHeartbeats 2000000 in
/-- C2 amended: (1) the live controller never modifies `concessions_used`
(it is 0 for every reachable session, so it never exceeds any configured
maximum); in the unused V5 engine, for a session in the `close` phase with
filled notes and a counter-offer carrying no objection keyword: (2) a
truthy counter-offer at or above `soft_floor` is accepted immediately at
the user's price; (3) an offer in `[hard_floor, soft_floor)` — in
particular one strictly below `current_offer` — holds at `current_offer`
without touching `concessions_used`; (4) an offer strictly below
`hard_floor` with `concessions_used < max_concessions` moves to
`max(hard_floor, round(0.97·soft_floor))` and increments
`concessions_used`; (5) with concessions exhausted it holds at
`soft_floor` — not `current_offer` — framed as final, leaving
`concessions_used` unchanged. -/
theorem c2_amended_concessions :
    (∀ st : GState, Reach st → ∀ s ∈ st.sessions, s.concessions_used = 0) ∧
    (∀ (env : String → Option String) (dl userText : String) (so ha cu co : Int)
      (u : Nat),
      anyWordIn ["高い", "予算", "出せない", "厳しい", "無理"] userText = false →
      anyWordIn ["他社", "比較", "もっと安い", "無料", "タダ"] userText = false →
      extractYenOffer userText = some u → ¬u = 0 →
      (u : Int) ≥ so →
      (proposeNextOffer env dl (mkVSess so ha cu co) userText).accept = true ∧
      (proposeNextOffer env dl (mkVSess so ha cu co) userText).price = some (u : Int) ∧
      (proposeNextOffer env dl (mkVSess so ha cu co) userText).concessions_used = none) ∧
    (∀ (env : String → Option String) (dl userText : String) (so ha cu co : Int)
      (u : Nat),
      anyWordIn ["高い", "予算", "出せない", "厳しい", "無理"] userText = false →
      anyWordIn ["他社", "比較", "もっと安い", "無料", "タダ"] userText = false →
      extractYenOffer userText = some u → ¬u = 0 →
      ¬((u : Int) ≥ so) → ¬((u : Int) < ha) → ¬cu = 0 →
      (proposeNextOffer env dl (mkVSess so ha cu co) userText).price = some cu ∧
      (proposeNextOffer env dl (mkVSess so ha cu co) userText).concessions_used = none ∧
      (proposeNextOffer env dl (mkVSess so ha cu co) userText).accept = false) ∧
    (∀ (env : String → Option String) (dl userText : String) (so ha cu co mc : Int)
      (u : Nat),
      anyWordIn ["高い", "予算", "出せない", "厳しい", "無理"] userText = false →
      anyWordIn ["他社", "比較", "もっと安い", "無料", "タダ"] userText = false →
      extractYenOffer userText = some u → ¬u = 0 →
      ¬((u : Int) ≥ so) → (u : Int) < ha →
      (getNegotiationParams env).maxConcessions = some mc → ¬co ≥ mc →
      (proposeNextOffer env dl (mkVSess so ha cu co) userText).price =
        some (max ha (((2 * (so * 97) + 10000) / 20000) * 100)) ∧
      (proposeNextOffer env dl (mkVSess so ha cu co) userText).concessions_used =
        some (co + 1) ∧
      (proposeNextOffer env dl (mkVSess so ha cu co) userText).accept = false) ∧
    (∀ (env : String → Option String) (dl userText : String) (so ha cu co mc : Int)
      (u : Nat),
      anyWordIn ["高い", "予算", "出せない", "厳しい", "無理"] userText = false →
      anyWordIn ["他社", "比較", "もっと安い", "無料", "タダ"] userText = false →
      extractYenOffer userText = some u → ¬u = 0 →
      ¬((u : Int) ≥ so) → (u : Int) < ha →
      (getNegotiationParams env).maxConcessions = some mc → co ≥ mc →
      (proposeNextOffer env dl (mkVSess so ha cu co) userText).price = some so ∧
      (proposeNextOffer env dl (mkVSess so ha cu co) userText).concessions_used =
        some co ∧
      (proposeNextOffer env dl (mkVSess so ha cu co) userText).accept = false) := by
  refine ⟨?_, ?_, ?_, ?_, ?_⟩
  · intro st hre s hs
    obtain ⟨hsess, -, -⟩ := stInv_reach hre
    obtain ⟨-, -, -, h3, -, -⟩ := hsess s hs
    exact h3
  · intro env dl userText so ha cu co u hhigh hvendor hu hu0 hge
    have h0 : decide (¬(u : Int) = 0) = true :=
      decide_eq_true (fun h => hu0 (by exact_mod_cast h))
    have h1 : decide ((u : Int) ≥ so) = true := decide_eq_true hge
    simp only [proposeNextOffer, mkVSess, closePhaseSess, hu, hhigh, hvendor,
      Option.map_some, nTruthy, nGe, nLt, jsOrNum, h0, h1]
    simp [hu0, hge]
  · intro env dl userText so ha cu co u hhigh hvendor hu hu0 hlow hnb hc0
    have h0 : decide (¬(u : Int) = 0) = true :=
      decide_eq_true (fun h => hu0 (by exact_mod_cast h))
    have h1 : decide ((u : Int) ≥ so) = false := decide_eq_false hlow
    have h2 : decide ((u : Int) < ha) = false := decide_eq_false hnb
    simp only [proposeNextOffer, mkVSess, closePhaseSess, hu, hhigh, hvendor,
      Option.map_some, nTruthy, nGe, nLt, jsOrNum, h0, h1, h2]
    simp [hu0, hc0, hlow, hnb]
  · intro env dl userText so ha cu co mc u hhigh hvendor hu hu0 hlow hb hmc hlt
    have h0 : decide (¬(u : Int) = 0) = true :=
      decide_eq_true (fun h => hu0 (by exact_mod_cast h))
    have h1 : decide ((u : Int) ≥ so) = false := decide_eq_false hlow
    have h2 : decide ((u : Int) < ha) = true := decide_eq_true hb
    have h3 : decide (co ≥ mc) = false := decide_eq_false hlt
    simp only [proposeNextOffer, mkVSess, closePhaseSess, hu, hhigh, hvendor,
      Option.map_some, nTruthy, nGe, nLt, jsOrNum, hmc, nMax, h0, h1, h2, h3]
    simp [hu0, hlow, hb, hlt]
  · intro env dl userText so ha cu co mc u hhigh hvendor hu hu0 hlow hb hmc hge
    have h0 : decide (¬(u : Int) = 0) = true :=
      decide_eq_true (fun h => hu0 (by exact_mod_cast h))
    have h1 : decide ((u : Int) ≥ so) = false := decide_eq_false hlow
    have h2 : decide ((u : Int) < ha) = true := decide_eq_true hb
    have h3 : decide (co ≥ mc) = true := decide_eq_true hge
    simp only [proposeNextOffer, mkVSess, closePhaseSess, hu, hhigh, hvendor,
      Option.map_some, nTruthy, nGe, nLt, jsOrNum, hmc, h0, h1, h2, h3]
    simp [hu0, hlow, hb, hge]

/-- Witness for C2 (amended): the live session of the indie trace has zero
concessions; on the default pricing a counter-offer of 13000 (at or above
the soft floor 12900) is accepted at the user's price, and the mid-band
counter-offer of 10000 holds at the standing 12900. -/
theorem c2_amended_concessions_witness :
    (indieOfferTrace.sessions.getD 0 dSess).concessions_used = 0 ∧
    (proposeNextOffer defaultEnv "D" (mkVSess 12900 9900 15000 0) "13000").accept =
      true ∧
    (proposeNextOffer defaultEnv "D" (mkVSess 12900 9900 12900 0) "10000").price =
      some 12900 :=
  ⟨c2_amended_concessions.1 indieOfferTrace
      (reach_runFlow ["価格", "目的", "個人でやってる", "いくらでも"]) _ (by decide),
   (c2_amended_concessions.2.1 defaultEnv "D" "13000" 12900 9900 15000 0 13000
      (by decide) (by decide) (by decide) (by decide) (by decide)).1,
   (c2_amended_concessions.2.2.1 defaultEnv "D" "10000" 12900 9900 12900 0 10000
      (by decide) (by decide) (by decide) (by decide) (by decide) (by decide)
      (by decide)).1⟩

end Kowaihito
